import Mathlib

/-!
Verification of the resumable, context-windowed OCR page pipeline
(`src/main.ts` of niklasarnitz/christliche-dogmatik).

JavaScript strings are embedded as `List Char`.  Filesystem state is
embedded as a listing of file names plus the content of the master
manifest `main.tex`.  External collaborators (the PDF rasterizer, the
Gemini recognition service, the JSON parser built into the runtime and
the Pushover notifier) are parameters of the functions that call them.
-/

set_option maxRecDepth 8000

namespace Dogmatik

/-- JS strings are sequences of characters. -/
abbrev Str := List Char

/-- Embedding of JS `String.prototype.includes(pat)`: does `pat` occur as a
contiguous substring?  (`true` at the empty pattern, as in JS.) -/
def containsSub (pat : Str) : Str → Bool
  | [] => pat.isEmpty
  | c :: rest => pat.isPrefixOf (c :: rest) || containsSub pat rest

/-- Embedding of JS `String.prototype.lastIndexOf(pat)`: index of the last
occurrence of `pat`, or `none` when there is no occurrence. -/
def lastIndexOf (pat : Str) : Str → Option Nat
  | [] => if pat.isEmpty then some 0 else none
  | c :: rest =>
    match lastIndexOf pat rest with
    | some i => some (i + 1)
    | none => if pat.isPrefixOf (c :: rest) then some 0 else none

/-- Number of (possibly overlapping) occurrences of `pat`, used to state
the "closing marker appears exactly once" invariant. -/
def countOcc (pat : Str) : Str → Nat
  | [] => 0
  | c :: rest => (if pat.isPrefixOf (c :: rest) then 1 else 0) + countOcc pat rest

/-- The decimal digit character for `k < 10`. -/
def digCh : Nat → Char
  | 0 => '0' | 1 => '1' | 2 => '2' | 3 => '3' | 4 => '4'
  | 5 => '5' | 6 => '6' | 7 => '7' | 8 => '8' | 9 => '9'
  | _ => '*'

/-- Fuel-driven decimal printing, `natDigitsAux fuel n` is correct for `n < fuel`. -/
def natDigitsAux : Nat → Nat → Str
  | 0, _ => []
  | fuel + 1, n =>
    if n < 10 then [digCh n]
    else natDigitsAux fuel (n / 10) ++ [digCh (n % 10)]

/-- Embedding of JS number-to-string conversion for naturals (as in
template literals such as `page$\x7bpageNum\x7d.tex`). -/
def natDigits (n : Nat) : Str := natDigitsAux (n + 1) n

/-- Value of a decimal digit string; embeds `parseInt(ds, 10)` on an
all-digit string. -/
def digitsVal (ds : Str) : Nat := ds.foldl (fun a c => 10 * a + (c.toNat - 48)) 0

/-- Embedding of `f.match(/\d+/)![0]`: the first maximal run of digits. -/
def firstDigitRun (f : Str) : Str :=
  (f.dropWhile (fun c => !c.isDigit)).takeWhile Char.isDigit

/-- `parseInt(f.match(/\d+/)![0], 10)` from `getLastProcessedPageByTex`. -/
def extractNum (f : Str) : Nat := digitsVal (firstDigitRun f)

def pageLit : Str := "page".toList

def texLit : Str := ".tex".toList

/-- Embedding of the test `/^page\d+\.tex$/.test(f)`: the name is exactly
`page`, a nonempty digit run, then `.tex`. -/
def isPageTexName (f : Str) : Bool :=
  pageLit.isPrefixOf f && texLit.isSuffixOf f &&
    decide (8 < f.length) &&
    ((f.drop 4).take (f.length - 8)).all Char.isDigit

/-- Embedding of `getLastProcessedPageByTex` (src/main.ts:95-101): filter the
directory listing by the page-unit pattern, parse the indices, return their
maximum (0 when no page unit exists; `Math.max` over a nonempty list of
naturals is folded from 0). -/
def getLastProcessedPageByTex (files : List Str) : Nat :=
  let pageTexFiles := files.filter isPageTexName
  if pageTexFiles.isEmpty then 0
  else (pageTexFiles.map extractNum).foldl max 0

/-- The driver resumes at `lastProcessedPage + 1` (src/main.ts:208,227-228:
the loop runs `i` from `lastProcessedPage` and processes `pageNum = i + 1`). -/
def determineStartPage (files : List Str) : Nat :=
  getLastProcessedPageByTex files + 1

/-- Name of the page unit written for page `n`: `page$\x7bn\x7d.tex`. -/
def pageFileName (n : Nat) : Str := pageLit ++ natDigits n ++ texLit

/-- Name of the raster artifact pdf2pic leaves for page `n`
(`untitled.$\x7bn\x7d.png`, kept in OUTPUT_DIR by src/main.ts:244). -/
def pngName (n : Nat) : Str := "untitled.".toList ++ natDigits n ++ ".png".toList

/-- `main.tex`, the master manifest file name. -/
def mainTexName : Str := "main.tex".toList

/-- The initial content `setupWorkspace` writes to `main.tex`
(src/main.ts:72-87), character for character. -/
def initialMainTex : Str :=
  ("\\documentclass[12pt, a4paper]\x7barticle\x7d\n\\usepackage[utf8]\x7binputenc\x7d\n\\usepackage\x7bfontspec\x7d % Für die Verwendung gotischer Schriftarten (falls nötig)\n\\usepackage\x7bgeometry\x7d\n\\geometry\x7ba4paper, margin=1in\x7d\n\n\\title\x7bChristliche Dogmatik - Band 1\x7d\n\\author\x7bFrancis Pieper\x7d\n\\date\x7b\x7d\n\n\\begin\x7bdocument\x7d\n\\maketitle\n\n% Die einzelnen Seiten werden hier inkludiert\n").toList

/-- The closing marker `\end\x7bdocument\x7d` searched for by the manifest update. -/
def endDoc : Str := "\\end\x7bdocument\x7d".toList

/-- The fixed part of an inclusion reference, `\include\x7bpage`. -/
def includePat : Str := "\\include\x7bpage".toList

/-- The inclusion line `"\n\\include\x7bpage" + pageNum + "\x7d"` (src/main.ts:293). -/
def incLine (pageNum : Nat) : Str :=
  '\n' :: (includePat ++ natDigits pageNum ++ ['\x7d'])

/-- Embedding of the inline manifest update of src/main.ts:291-304 (the
Document Assembler step the spec calls `recordPage`): insert the inclusion
line immediately before the last `\end\x7bdocument\x7d` when the marker is present,
otherwise append it at the end. -/
def recordPage (mainTex : Str) (pageNum : Nat) : Str :=
  if containsSub endDoc mainTex then
    match lastIndexOf endDoc mainTex with
    | some idx => mainTex.take idx ++ incLine pageNum ++ ['\n'] ++ mainTex.drop idx
    | none => mainTex ++ incLine pageNum
  else mainTex ++ incLine pageNum

/-- The text appended by finalization when the marker is absent:
`"\n\n\\end\x7bdocument\x7d\n"` (src/main.ts:348). -/
def closeSuffix : Str := '\n' :: '\n' :: (endDoc ++ ['\n'])

/-- Embedding of the finalization step (src/main.ts:346-349): append the
closing marker if it is not present. -/
def finalizeMainTex (s : Str) : Str :=
  if containsSub endDoc s then s else s ++ closeSuffix

/-- Try to read an inclusion reference starting at the front of `s`:
`\include\x7bpage`, then a nonempty digit run, then `\x7d`. -/
def parseRefAt (s : Str) : Option Nat :=
  if includePat.isPrefixOf s then
    let rest := s.drop includePat.length
    let ds := rest.takeWhile Char.isDigit
    if ds.isEmpty then none
    else
      match rest.drop ds.length with
      | '\x7d' :: _ => some (digitsVal ds)
      | _ => none
  else none

/-- All inclusion references occurring in a manifest, in order of position.
This is the observation function the manifest invariants are stated with. -/
def refsOf : Str → List Nat
  | [] => []
  | c :: rest =>
    match parseRefAt (c :: rest) with
    | some n => n :: refsOf rest
    | none => refsOf rest

/-- Abstract building block of a reachable manifest body: an inclusion line
or a single filler newline. -/
inductive Chunk where
  | inc : Nat → Chunk
  | pad : Chunk
deriving DecidableEq

/-- Concrete text of a chunk. -/
def Chunk.render : Chunk → Str
  | .inc n => incLine n
  | .pad => ['\n']

/-- Concrete text of a chunk sequence. -/
def renderChunks (cs : List Chunk) : Str := (cs.map Chunk.render).flatten

/-- The references carried by a chunk sequence. -/
def chunkRefs (cs : List Chunk) : List Nat :=
  cs.filterMap fun c => match c with | .inc n => some n | .pad => none

/-- A manifest still lacking the closing marker: the fixed preamble followed
by inclusion lines and filler newlines. -/
def openRender (cs : List Chunk) : Str := initialMainTex ++ renderChunks cs

/-- A manifest carrying the closing marker as its last content. -/
def closedRender (cs : List Chunk) : Str :=
  initialMainTex ++ renderChunks cs ++ endDoc ++ ['\n']

/-- Manifest states reachable by the pipeline: the initial content, then
`recordPage` calls with strictly increasing page numbers (the driver
processes pages in increasing order and resumes past the highest recorded
page), interleaved with finalizations.  The second component is the largest
page number recorded so far (0 initially). -/
inductive MReach : Str → Nat → Prop where
  | init : MReach initialMainTex 0
  | record {s : Str} {lo n : Nat} : MReach s lo → lo < n → MReach (recordPage s n) n
  | fin {s : Str} {lo : Nat} : MReach s lo → MReach (finalizeMainTex s) lo

/-! ## Recognition adapter and error classification -/

/-- `error.toString()` of the wrapper thrown at src/main.ts:197. -/
def apiFailMsg : Str := "Error: API-Anfrage fehlgeschlagen.".toList

/-- `error.toString()` of the missing-current-page error (src/main.ts:257). -/
def missingImgMsg : Str := "Error: Seitenbild konnte nicht extrahiert werden.".toList

/-- `error.toString()` of the missing-credential error (src/main.ts:113). -/
def geminiKeyMsg : Str := "Error: GEMINI_API_KEY Umgebungsvariable nicht gesetzt.".toList

/-- The quota classification of src/main.ts:270-274 and 315-319: the
stringified error must contain all three markers. -/
def isQuotaError (errStr : Str) : Bool :=
  containsSub "ApiError".toList errStr &&
    containsSub "RESOURCE_EXHAUSTED".toList errStr &&
    containsSub "retryDelay".toList errStr

/-- The literal `"retryDelay":"` preceding the digits in the delay field. -/
def retryDelayPat : Str := "\"retryDelay\":\"".toList

/-- One regex-match attempt of `/"retryDelay":"(\d+)s"/` at the front of `s`. -/
def tryDelayAt (s : Str) : Option Nat :=
  if retryDelayPat.isPrefixOf s then
    let rest := s.drop retryDelayPat.length
    let ds := rest.takeWhile Char.isDigit
    if ds.isEmpty then none
    else
      match rest.drop ds.length with
      | 's' :: _ => some (digitsVal ds)
      | _ => none
  else none

/-- Embedding of `errStr.match(/"retryDelay":"(\d+)s"/)` (src/main.ts:276):
the first position where the pattern matches. -/
def findRetryDelay : Str → Option Nat
  | [] => none
  | c :: rest =>
    match tryDelayAt (c :: rest) with
    | some n => some n
    | none => findRetryDelay rest

/-- `const seconds = match ? parseInt(match[1], 10) : 20` (src/main.ts:277). -/
def quotaDelaySeconds (errStr : Str) : Nat := (findRetryDelay errStr).getD 20

/-- A part sent to the recognition service.  `data` stands for the base64
payload produced by `fileToGenerativePart` (represented by the underlying
bytes; base64 encoding is a bijection and is not modelled further). -/
structure GenerativePart where
  data : List Nat
  mimeType : Str
deriving DecidableEq

/-- Embedding of `fileToGenerativePart` (src/main.ts:54-61). -/
def fileToGenerativePart (buf : List Nat) (mime : Str) : GenerativePart :=
  ⟨buf, mime⟩

def pngMime : Str := "image/png".toList

/-- `pageImageBuffers.map(buf => buf ? part : null).filter(Boolean)`
(src/main.ts:132-139): absent neighbors are dropped. -/
def imageParts (bufs : List (Option (List Nat))) : List GenerativePart :=
  (bufs.map fun b => b.map fun buf => fileToGenerativePart buf pngMime).filterMap id

/-- Embedding of `processPageWithGemini` (src/main.ts:108-199).  `hasKey`
models presence of `GEMINI_API_KEY`; `call` models the external
`generateContent` request, yielding either a thrown error (its string form)
or `result.text` (`none` when the field is not a string); `parse` models
the runtime `JSON.parse` applied to the response text, yielding `none` when
it throws and otherwise the optional `content` field of the parsed value.
Every failure inside the outer `try` is caught at src/main.ts:195-198 and
replaced by the generic wrapper error, so the caller never observes the
original error string. -/
def processPageWithGemini
    (hasKey : Bool)
    (call : List GenerativePart → Except Str (Option Str))
    (parse : Str → Option (Option Str))
    (bufs : List (Option (List Nat))) : Except Str Str :=
  if hasKey = false then .error geminiKeyMsg
  else
    match call (imageParts bufs) with
    | .error _ => .error apiFailMsg
    | .ok none => .error apiFailMsg
    | .ok (some txt) =>
      match parse txt with
      | none => .error apiFailMsg
      | some content => .ok (content.getD [])

/-! ## Context window -/

/-- Embedding of `getImageBuffer` (src/main.ts:236-248): out-of-range
indices yield `null` without consulting the renderer; `render` models the
pdf2pic conversion plus file read (`none` when no output path is produced);
a zero-length buffer is replaced by `null`. -/
def getImageBuffer (render : Nat → Option (List Nat)) (totalPages pageIdx : Nat) :
    Option (List Nat) :=
  if pageIdx < 1 ∨ totalPages < pageIdx then none
  else
    match render pageIdx with
    | some buf => if 0 < buf.length then some buf else none
    | none => none

/-- The (previous, current, next) context window of src/main.ts:250-252. -/
def buildWindow (render : Nat → Option (List Nat)) (totalPages pageNum : Nat) :
    Option (List Nat) × Option (List Nat) × Option (List Nat) :=
  (getImageBuffer render totalPages (pageNum - 1),
   getImageBuffer render totalPages pageNum,
   getImageBuffer render totalPages (pageNum + 1))

/-- One page-processing attempt up to the recognition call
(src/main.ts:236-266): build the window, fail with the missing-image error
when the current page has no image, otherwise run the recognition adapter
on `[prev, curr, next]`. -/
def attemptPage (render : Nat → Option (List Nat)) (hasKey : Bool)
    (call : List GenerativePart → Except Str (Option Str))
    (parse : Str → Option (Option Str))
    (totalPages pageNum : Nat) : Except Str Str :=
  let prev := getImageBuffer render totalPages (pageNum - 1)
  let curr := getImageBuffer render totalPages pageNum
  let next := getImageBuffer render totalPages (pageNum + 1)
  match curr with
  | none => .error missingImgMsg
  | some c => processPageWithGemini hasKey call parse [prev, some c, next]

/-! ## Retry controller and pipeline driver -/

/-- `const MAX_RETRIES = 3` (src/main.ts:225). -/
def MAX_RETRIES : Nat := 3

/-- Outcome of one attempt of the inner `try` block: success with the OCR
content, or a thrown error in its string form. -/
inductive AttemptResult where
  | ok : Str → AttemptResult
  | err : Str → AttemptResult
deriving DecidableEq

/-- Result of the per-page retry loop: success (attempt number at success,
quota sleeps performed, content, unconsumed outcomes), exhaustion of the
retry budget (sleeps, unconsumed outcomes), or exhaustion of the supplied
outcome trace (a modelling artifact: the environment did not provide
enough outcomes). -/
inductive RetryOutcome where
  | succeeded : Nat → List Nat → Str → List AttemptResult → RetryOutcome
  | failed : List Nat → List AttemptResult → RetryOutcome
  | ranOut : Nat → List Nat → RetryOutcome
deriving DecidableEq

/-- Embedding of the retry loop of src/main.ts:233-332.  The loop condition
`attempt <= MAX_RETRIES` is checked first; a successful attempt breaks; a
failure whose string carries the quota markers sleeps for
`quotaDelaySeconds` and is retried at the same attempt number
(`attempt--` at src/main.ts:321 cancels the loop increment); any other
failure consumes one attempt. -/
def runRetryLoop : Nat → Nat → List Nat → List AttemptResult → RetryOutcome
  | maxR, attempt, sleeps, outcomes =>
    if maxR < attempt then .failed sleeps outcomes
    else
      match outcomes with
      | [] => .ranOut attempt sleeps
      | .ok c :: rest => .succeeded attempt sleeps c rest
      | .err e :: rest =>
        if isQuotaError e then
          runRetryLoop maxR attempt (sleeps ++ [quotaDelaySeconds e]) rest
        else
          runRetryLoop maxR (attempt + 1) sleeps rest

/-- The Pushover message of src/main.ts:335. -/
def notifyMsg (pageNum maxR : Nat) : Str :=
  "Seite ".toList ++ natDigits pageNum ++ " konnte nach ".toList ++
    natDigits maxR ++ " Versuchen nicht verarbeitet werden.".toList

/-- Filesystem-level state of one run: the OUTPUT_DIR listing, the content
of `main.tex`, and the operator notifications sent so far. -/
structure DriverState where
  dir : List Str
  mainTex : Str
  notified : List Str
deriving DecidableEq

/-- `fs.writeFile` at the name level: create the entry if absent
(overwriting an existing file does not change the listing). -/
def writeName (dir : List Str) (f : Str) : List Str :=
  if f ∈ dir then dir else dir ++ [f]

/-- The raster artifacts an attempt for `pageNum` leaves in OUTPUT_DIR:
pdf2pic writes `untitled.$\x7bp\x7d.png` for each in-range index of the window
(src/main.ts:217-223,240; the PNG files are not deleted). -/
def renderSideEffects (dir : List Str) (totalPages pageNum : Nat) : List Str :=
  let d1 := if 1 ≤ pageNum - 1 ∧ pageNum - 1 ≤ totalPages then writeName dir (pngName (pageNum - 1)) else dir
  let d2 := if 1 ≤ pageNum ∧ pageNum ≤ totalPages then writeName d1 (pngName pageNum) else d1
  if 1 ≤ pageNum + 1 ∧ pageNum + 1 ≤ totalPages then writeName d2 (pngName (pageNum + 1)) else d2

/-- Embedding of `setupWorkspace` (src/main.ts:66-89): when `main.tex` is
absent, create it with the initial content. -/
def setupWorkspace (st : DriverState) : DriverState :=
  if mainTexName ∈ st.dir then st
  else { st with dir := st.dir ++ [mainTexName], mainTex := initialMainTex }

/-- One iteration of the page loop of src/main.ts:227-343 for page
`pageNum`, driven by the trace of attempt outcomes for this page.  On
success the page unit is written and the manifest updated
(src/main.ts:288-304); on retry exhaustion the operator is notified and the
run halts (src/main.ts:333-342).  The Boolean is `true` when the loop
continues to the next page. -/
def driverPage (maxR totalPages : Nat) (trace : List AttemptResult)
    (pageNum : Nat) (st : DriverState) : DriverState × Bool :=
  let st1 : DriverState := { st with dir := renderSideEffects st.dir totalPages pageNum }
  match runRetryLoop maxR 1 [] trace with
  | .succeeded _ _ _ _ =>
    ({ st1 with
        dir := writeName st1.dir (pageFileName pageNum),
        mainTex := recordPage st1.mainTex pageNum }, true)
  | .failed _ _ =>
    ({ st1 with notified := st1.notified ++ [notifyMsg pageNum maxR] }, false)
  | .ranOut _ _ => (st1, false)

/-- The page loop, by remaining fuel (the driver supplies more fuel than
pages, so fuel never runs out on an in-range page).  Returns the final
state and the list of page numbers for which processing was started. -/
def driverLoop (maxR totalPages : Nat) (traces : Nat → List AttemptResult) :
    Nat → Nat → DriverState → DriverState × List Nat
  | 0, _, st => (st, [])
  | fuel + 1, pageNum, st =>
    if totalPages < pageNum then (st, [])
    else
      match driverPage maxR totalPages (traces pageNum) pageNum st with
      | (st', true) =>
        let r := driverLoop maxR totalPages traces fuel (pageNum + 1) st'
        (r.1, pageNum :: r.2)
      | (st', false) => (st', [pageNum])

/-- Embedding of `processPdfDocument` (src/main.ts:204-352): bootstrap the
workspace, compute the resume point from the page units on disk, run the
page loop from there, and finalize the manifest.  Returns the final state
and the pages attempted. -/
def processPdfDocument (maxR totalPages : Nat) (traces : Nat → List AttemptResult)
    (st0 : DriverState) : DriverState × List Nat :=
  let st1 := setupWorkspace st0
  let start := getLastProcessedPageByTex st1.dir + 1
  let r := driverLoop maxR totalPages traces (totalPages + 1) start st1
  ({ r.1 with mainTex := finalizeMainTex r.1.mainTex }, r.2)

/-- A run starting with an empty OUTPUT_DIR. -/
def freshState : DriverState := ⟨[], [], []⟩

/-- A stringified Gemini 429 error as the SDK raises it from
`generateContent`: it carries the `ApiError`, `RESOURCE_EXHAUSTED` and
`retryDelay` markers that the quota classifier of src/main.ts:270-276
looks for, with a suggested 5 second wait. -/
def quotaErrSample : Str :=
  ("ApiError: got status: 429 . \x7b\"error\":\x7b\"code\":429,\"message\":\"You exceeded your current quota\",\"status\":\"RESOURCE_EXHAUSTED\",\"details\":[\x7b\"retryDelay\":\"5s\"\x7d]\x7d\x7d").toList

/-! ## Helper lemmas: occurrences of substrings -/

theorem containsSub_iff (pat s : Str) :
    containsSub pat s = true ↔ ∃ i, pat <+: s.drop i := by
  induction s with
  | nil =>
    simp only [containsSub, List.drop_nil]
    constructor
    · intro h
      exact ⟨0, by simp_all [List.isEmpty_iff]⟩
    · rintro ⟨i, hi⟩
      have := List.prefix_nil.1 hi
      simp [this, List.isEmpty_iff]
  | cons c rest ih =>
    simp only [containsSub, Bool.or_eq_true, List.isPrefixOf_iff_prefix, ih]
    constructor
    · rintro (h | ⟨i, hi⟩)
      · exact ⟨0, h⟩
      · exact ⟨i + 1, by simpa using hi⟩
    · rintro ⟨i, hi⟩
      cases i with
      | zero => exact Or.inl (by simpa using hi)
      | succ j => exact Or.inr ⟨j, by simpa using hi⟩

theorem containsSub_of_position {pat s : Str} (i : Nat) (h : pat <+: s.drop i) :
    containsSub pat s = true :=
  (containsSub_iff pat s).2 ⟨i, h⟩

theorem mem_of_containsSub {pat s : Str} {c : Char} (hc : c ∈ pat)
    (h : containsSub pat s = true) : c ∈ s := by
  obtain ⟨i, hi⟩ := (containsSub_iff pat s).1 h
  exact List.drop_subset i s (hi.subset hc)

/-- A prefix of `u ++ v` either fits inside `u` or covers all of `u` and
continues as a prefix of `v`. -/
theorem prefix_append_split {pat u v : Str} (h : pat <+: u ++ v) :
    (pat.length ≤ u.length ∧ pat <+: u) ∨
      (u.length < pat.length ∧ pat.drop u.length <+: v) := by
  rcases le_or_lt pat.length u.length with hle | hlt
  · left
    refine ⟨hle, ?_⟩
    have := List.prefix_iff_eq_take.1 h
    rw [List.take_append_eq_append_take, Nat.sub_eq_zero_of_le hle,
      List.take_zero, List.append_nil] at this
    exact List.prefix_iff_eq_take.2 this
  · right
    refine ⟨hlt, ?_⟩
    have heq := List.prefix_iff_eq_take.1 h
    rw [List.take_append_eq_append_take,
      List.take_of_length_le (Nat.le_of_lt hlt)] at heq
    have hdrop : pat.drop u.length = List.take (pat.length - u.length) v := by
      nth_rewrite 1 [heq]
      rw [List.drop_left]
    rw [hdrop]
    exact List.take_prefix _ v

theorem not_prefix_of_head_ne {p : Str} {c : Char} {t : Str}
    (hne : p ≠ []) (h : p.head? ≠ some c) : ¬ (p <+: c :: t) := by
  intro hp
  cases p with
  | nil => exact hne rfl
  | cons a p' =>
    obtain ⟨r, hr⟩ := hp
    rw [List.cons_append] at hr
    injection hr with h1 _
    exact h (by simp [h1])

theorem head?_of_front {p : Str} {c : Char} {t : Str}
    (hne : p ≠ []) (h : p <+: c :: t) : p.head? = some c := by
  cases p with
  | nil => exact absurd rfl hne
  | cons a p' =>
    obtain ⟨r, hr⟩ := h
    rw [List.cons_append] at hr
    injection hr with h1 _
    simp [h1]

/-- Positions strictly inside `a` carry no occurrence of `pat` in `a ++ b`,
provided `pat` does not occur in `a` alone and no tail of `pat` can start `b`. -/
theorem no_position_append {pat a b : Str}
    (ha : containsSub pat a = false)
    (hspan : ∀ k, 0 < k → k < pat.length → ¬ (pat.drop k <+: b)) :
    ∀ i, i < a.length → ¬ (pat <+: (a ++ b).drop i) := by
  intro i hi hp
  rw [List.drop_append_eq_append_drop, Nat.sub_eq_zero_of_le (Nat.le_of_lt hi),
    List.drop_zero] at hp
  rcases prefix_append_split hp with ⟨hle, hpre⟩ | ⟨hlt, htail⟩
  · have : containsSub pat a = true := containsSub_of_position i hpre
    simp [this] at ha
  · have hklen : (a.drop i).length = a.length - i := by simp
    rw [hklen] at hlt htail
    exact hspan (a.length - i) (by omega) hlt htail

theorem containsSub_append_false {pat a b : Str}
    (ha : containsSub pat a = false)
    (hb : containsSub pat b = false)
    (hspan : ∀ k, 0 < k → k < pat.length → ¬ (pat.drop k <+: b)) :
    containsSub pat (a ++ b) = false := by
  rw [← Bool.not_eq_true]
  intro hcon
  obtain ⟨i, hi⟩ := (containsSub_iff _ _).1 hcon
  rcases Nat.lt_or_ge i a.length with hlt | hge
  · exact no_position_append ha hspan i hlt hi
  · rw [List.drop_append_eq_append_drop, List.drop_eq_nil_of_le hge,
      List.nil_append] at hi
    have : containsSub pat b = true := containsSub_of_position (i - a.length) hi
    simp [this] at hb

theorem containsSub_append_of_right {pat b : Str} (h : containsSub pat b = true) :
    ∀ a : Str, containsSub pat (a ++ b) = true := by
  intro a
  induction a with
  | nil => simp only [List.nil_append]; exact h
  | cons c a' ih => simp [containsSub, ih]

theorem containsSub_self_append {pat t : Str} (h : pat ≠ []) :
    containsSub pat (pat ++ t) = true := by
  cases pat with
  | nil => exact absurd rfl h
  | cons c p' =>
    simp only [containsSub, List.cons_append, Bool.or_eq_true,
      List.isPrefixOf_iff_prefix]
    exact Or.inl (List.prefix_append (c :: p') t)

/-! ## Helper lemmas: lastIndexOf and countOcc -/

theorem lastIndexOf_cons_some {pat : Str} {c : Char} {rest : Str} {j : Nat}
    (h : lastIndexOf pat rest = some j) :
    lastIndexOf pat (c :: rest) = some (j + 1) := by
  simp [lastIndexOf, h]

theorem lastIndexOf_append_some {pat s : Str} {j : Nat}
    (h : lastIndexOf pat s = some j) :
    ∀ X : Str, lastIndexOf pat (X ++ s) = some (X.length + j) := by
  intro X
  induction X with
  | nil => simpa using h
  | cons c X' ih =>
    rw [List.cons_append, lastIndexOf_cons_some ih, List.length_cons]
    congr 1
    omega

theorem countOcc_append_left {pat : Str} :
    ∀ {a b : Str}, (∀ i, i < a.length → ¬ (pat <+: (a ++ b).drop i)) →
    countOcc pat (a ++ b) = countOcc pat b := by
  intro a
  induction a with
  | nil => intro b _; simp
  | cons c a' ih =>
    intro b h
    have h0 : ¬ (pat <+: c :: (a' ++ b)) := by
      have := h 0 (by simp)
      simpa using this
    rw [List.cons_append, countOcc]
    rw [if_neg (by rw [List.isPrefixOf_iff_prefix]; exact h0)]
    rw [ih fun i hi => by simpa using h (i + 1) (by simpa using hi)]
    exact Nat.zero_add _

/-! ## Helper lemmas: decimal digits -/

theorem digCh_isDigit {k : Nat} (h : k < 10) : (digCh k).isDigit = true := by
  interval_cases k <;> decide

theorem digCh_val {k : Nat} (h : k < 10) : (digCh k).toNat - 48 = k := by
  interval_cases k <;> decide

theorem natDigitsAux_all_digit :
    ∀ fuel n c, c ∈ natDigitsAux fuel n → c.isDigit = true := by
  intro fuel
  induction fuel with
  | zero => intro n c h; simp [natDigitsAux] at h
  | succ f ih =>
    intro n c h
    rw [natDigitsAux] at h
    by_cases hn : n < 10
    · rw [if_pos hn] at h
      simp only [List.mem_singleton] at h
      subst h
      exact digCh_isDigit hn
    · rw [if_neg hn] at h
      rcases List.mem_append.1 h with h1 | h2
      · exact ih _ _ h1
      · simp only [List.mem_singleton] at h2
        subst h2
        exact digCh_isDigit (Nat.mod_lt _ (by norm_num))

theorem natDigits_all_digit {n : Nat} {c : Char} (h : c ∈ natDigits n) :
    c.isDigit = true :=
  natDigitsAux_all_digit _ _ _ h

theorem natDigits_ne_nil (n : Nat) : natDigits n ≠ [] := by
  rw [natDigits, natDigitsAux]
  by_cases hn : n < 10
  · simp [hn]
  · simp [hn]

theorem digitsVal_append_single (a : Str) (c : Char) :
    digitsVal (a ++ [c]) = 10 * digitsVal a + (c.toNat - 48) := by
  simp [digitsVal, List.foldl_append]

theorem digitsVal_natDigitsAux :
    ∀ fuel n, n < fuel → digitsVal (natDigitsAux fuel n) = n := by
  intro fuel
  induction fuel with
  | zero => omega
  | succ f ih =>
    intro n hn
    rw [natDigitsAux]
    by_cases h10 : n < 10
    · rw [if_pos h10]
      have hv : digitsVal [digCh n] = (digCh n).toNat - 48 := by simp [digitsVal]
      rw [hv, digCh_val h10]
    · rw [if_neg h10, digitsVal_append_single, ih (n / 10) (by omega),
        digCh_val (Nat.mod_lt _ (by norm_num))]
      omega

theorem digitsVal_natDigits (n : Nat) : digitsVal (natDigits n) = n :=
  digitsVal_natDigitsAux (n + 1) n (Nat.lt_succ_self n)

theorem takeWhile_digits_stop {ds : Str} (h : ∀ c ∈ ds, c.isDigit = true)
    {c : Char} (hc : c.isDigit = false) (r : Str) :
    (ds ++ c :: r).takeWhile Char.isDigit = ds := by
  induction ds with
  | nil => simp [List.takeWhile_cons, hc]
  | cons d ds' ih =>
    have hd : d.isDigit = true := h d (by simp)
    simp [List.takeWhile_cons, hd, ih fun x hx => h x (by simp [hx])]

theorem dropWhile_nondigit_append {u : Str} (h : ∀ c ∈ u, c.isDigit = false)
    (v : Str) :
    (u ++ v).dropWhile (fun c => !c.isDigit) = v.dropWhile (fun c => !c.isDigit) := by
  induction u with
  | nil => simp
  | cons d u' ih =>
    have hd : d.isDigit = false := h d (by simp)
    rw [List.cons_append, List.dropWhile_cons]
    simp only [hd, Bool.not_false, if_true]
    exact ih fun x hx => h x (by simp [hx])

/-! ## Helper lemmas: file names -/

theorem extractNum_pageFileName (n : Nat) : extractNum (pageFileName n) = n := by
  rw [extractNum, firstDigitRun, pageFileName, List.append_assoc]
  rw [@dropWhile_nondigit_append pageLit (by decide) (natDigits n ++ texLit)]
  have hd : (natDigits n ++ texLit).dropWhile (fun c => !c.isDigit)
      = natDigits n ++ texLit := by
    cases hnd : natDigits n with
    | nil => exact absurd hnd (natDigits_ne_nil n)
    | cons c cs =>
      have : c.isDigit = true := natDigits_all_digit (by rw [hnd]; simp)
      rw [List.cons_append, List.dropWhile_cons]
      simp [this]
  rw [hd]
  have : texLit = '.' :: "tex".toList := by decide
  rw [this, takeWhile_digits_stop (fun c hc => natDigits_all_digit hc) (by decide)]
  exact digitsVal_natDigits n

theorem isPageTexName_pageFileName (n : Nat) :
    isPageTexName (pageFileName n) = true := by
  have hds := natDigits_ne_nil n
  have hlen : 0 < (natDigits n).length := List.length_pos.2 hds
  rw [isPageTexName]
  have h1 : pageLit.isPrefixOf (pageFileName n) = true := by
    rw [List.isPrefixOf_iff_prefix, pageFileName, List.append_assoc]
    exact List.prefix_append pageLit _
  have h2 : texLit.isSuffixOf (pageFileName n) = true := by
    rw [List.isSuffixOf_iff_suffix, pageFileName]
    exact List.suffix_append _ texLit
  have hflen : (pageFileName n).length = 8 + (natDigits n).length := by
    simp [pageFileName, pageLit, texLit]
    omega
  have h3 : decide (8 < (pageFileName n).length) = true := by
    rw [hflen]; simp; omega
  have h4 : (((pageFileName n).drop 4).take ((pageFileName n).length - 8)).all
      Char.isDigit = true := by
    have hdrop : (pageFileName n).drop 4 = natDigits n ++ texLit := by
      rw [pageFileName, List.append_assoc]
      exact List.drop_left' (by decide)
    rw [hdrop, hflen]
    have : 8 + (natDigits n).length - 8 = (natDigits n).length := by omega
    rw [this, List.take_left]
    exact List.all_eq_true.2 fun c hc => natDigits_all_digit hc
  rw [h1, h2, h3, h4]
  rfl

theorem isPageTexName_mainTexName : isPageTexName mainTexName = false := by decide

theorem isPageTexName_pngName (n : Nat) : isPageTexName (pngName n) = false := by
  have hsuf : texLit.isSuffixOf (pngName n) = false := by
    rw [← Bool.not_eq_true, List.isSuffixOf_iff_suffix]
    rintro ⟨t, ht⟩
    have hpng : pngName n = ("untitled.".toList ++ natDigits n) ++ ".png".toList := by
      rw [pngName, List.append_assoc]
    rw [hpng] at ht
    have hlen : t.length = ("untitled.".toList ++ natDigits n).length := by
      have h5 := congrArg List.length ht
      simp only [List.length_append] at h5 ⊢
      have htex : (texLit : Str).length = 4 := by decide
      have hpg : (".png".toList : Str).length = 4 := by decide
      omega
    have hdrop := congrArg (List.drop t.length) ht
    rw [List.drop_left] at hdrop
    rw [hlen, List.drop_left] at hdrop
    exact absurd hdrop (by decide)
  simp [isPageTexName, hsuf]

/-! ## Helper lemmas: span-freeness of the marker and inclusion patterns -/

theorem endDoc_tail_heads :
    ∀ k, k < endDoc.length → 0 < k →
      endDoc.drop k ≠ [] ∧ (endDoc.drop k).head? ≠ some '\n' ∧
        (endDoc.drop k).head? ≠ some '\\' := by decide

theorem includePat_tail_heads :
    ∀ k, k < includePat.length → 0 < k →
      includePat.drop k ≠ [] ∧ (includePat.drop k).head? ≠ some '\n' ∧
        (includePat.drop k).head? ≠ some '\\' := by decide

theorem span_discharge {pat b : Str}
    (hpat : ∀ k, k < pat.length → 0 < k →
      pat.drop k ≠ [] ∧ (pat.drop k).head? ≠ some '\n' ∧
        (pat.drop k).head? ≠ some '\\')
    (hb : b = [] ∨ b.head? = some '\n' ∨ b.head? = some '\\') :
    ∀ k, 0 < k → k < pat.length → ¬ (pat.drop k <+: b) := by
  intro k hk1 hk2 hp
  obtain ⟨hne, hn1, hn2⟩ := hpat k hk2 hk1
  rcases hb with rfl | hh | hh
  · exact hne (List.prefix_nil.1 hp)
  · cases b with
    | nil => simp at hh
    | cons c t =>
      have hc : c = '\n' := by simpa using hh
      subst hc
      exact hn1 (head?_of_front hne hp)
  · cases b with
    | nil => simp at hh
    | cons c t =>
      have hc : c = '\\' := by simpa using hh
      subst hc
      exact hn2 (head?_of_front hne hp)

/-! ## Helper lemmas: scanning for inclusion references -/

theorem parseRefAt_none_of_not_pre {s : Str} (h : ¬ (includePat <+: s)) :
    parseRefAt s = none := by
  rw [parseRefAt, if_neg (by rw [List.isPrefixOf_iff_prefix]; exact h)]

theorem parseRefAt_none_head {c : Char} (hc : c ≠ '\\') (x : Str) :
    parseRefAt (c :: x) = none := by
  apply parseRefAt_none_of_not_pre
  apply not_prefix_of_head_ne (by decide)
  have hh : includePat.head? = some '\\' := by decide
  rw [hh]
  intro h
  exact hc (Option.some.inj h).symm

theorem refsOf_cons_none {c : Char} {rest : Str} (h : parseRefAt (c :: rest) = none) :
    refsOf (c :: rest) = refsOf rest := by
  rw [refsOf, h]

theorem refsOf_cons_some {c : Char} {rest : Str} {n : Nat}
    (h : parseRefAt (c :: rest) = some n) :
    refsOf (c :: rest) = n :: refsOf rest := by
  rw [refsOf, h]

theorem refsOf_append_no_bs {u : Str} (h : ∀ c ∈ u, c ≠ '\\') (b : Str) :
    refsOf (u ++ b) = refsOf b := by
  induction u with
  | nil => simp
  | cons c u' ih =>
    rw [List.cons_append, refsOf_cons_none (parseRefAt_none_head (h c (by simp)) _)]
    exact ih fun x hx => h x (by simp [hx])

theorem refsOf_append_no_occ {a b : Str}
    (h : ∀ i, i < a.length → ¬ (includePat <+: (a ++ b).drop i)) :
    refsOf (a ++ b) = refsOf b := by
  induction a with
  | nil => simp
  | cons c a' ih =>
    have h0 : ¬ (includePat <+: c :: (a' ++ b)) := by simpa using h 0 (by simp)
    rw [List.cons_append, refsOf_cons_none (parseRefAt_none_of_not_pre h0)]
    exact ih fun i hi => by simpa using h (i + 1) (by simpa using hi)

theorem digit_ne_bs {c : Char} (h : c.isDigit = true) : c ≠ '\\' := by
  intro hc
  subst hc
  exact absurd h (by decide)

theorem parseRefAt_incLine (n : Nat) (r : Str) :
    parseRefAt (includePat ++ (natDigits n ++ ('\x7d' :: r))) = some n := by
  have hne := natDigits_ne_nil n
  have hpre : includePat.isPrefixOf (includePat ++ (natDigits n ++ ('\x7d' :: r))) = true := by
    rw [List.isPrefixOf_iff_prefix]
    exact List.prefix_append _ _
  have hdrop : (includePat ++ (natDigits n ++ ('\x7d' :: r))).drop includePat.length
      = natDigits n ++ ('\x7d' :: r) := List.drop_left _ _
  have htw : (natDigits n ++ ('\x7d' :: r)).takeWhile Char.isDigit = natDigits n :=
    takeWhile_digits_stop (fun c hc => natDigits_all_digit hc) (by decide) r
  have hrest : (natDigits n ++ ('\x7d' :: r)).drop (natDigits n).length = '\x7d' :: r :=
    List.drop_left _ _
  have hemp : (natDigits n).isEmpty = false := by
    rw [← Bool.not_eq_true, List.isEmpty_iff]
    exact hne
  simp only [parseRefAt, hpre, if_true, hdrop, htw, hrest, hemp]
  simp [digitsVal_natDigits]

theorem refsOf_incLine (n : Nat) (r : Str) :
    refsOf (incLine n ++ r) = n :: refsOf r := by
  have hip : includePat = '\\' :: "include\x7bpage".toList := by decide
  have e1 : incLine n ++ r = '\n' :: (includePat ++ (natDigits n ++ ('\x7d' :: r))) := by
    simp [incLine, List.append_assoc]
  rw [e1, refsOf_cons_none (parseRefAt_none_head (by decide) _)]
  have e2 : includePat ++ (natDigits n ++ ('\x7d' :: r))
      = '\\' :: ("include\x7bpage".toList ++ (natDigits n ++ ('\x7d' :: r))) := by
    rw [hip, List.cons_append]
  rw [e2, refsOf_cons_some (by rw [← List.cons_append, ← hip]; exact parseRefAt_incLine n r)]
  congr 1
  rw [refsOf_append_no_bs (by decide)]
  rw [refsOf_append_no_bs (fun c hc => digit_ne_bs (natDigits_all_digit hc))]
  rw [refsOf_cons_none (parseRefAt_none_head (by decide) _)]

/-! ## Helper lemmas: chunk renderings -/

theorem renderChunks_cons (ch : Chunk) (cs : List Chunk) :
    renderChunks (ch :: cs) = ch.render ++ renderChunks cs := by
  simp [renderChunks]

theorem renderChunks_append (cs ds : List Chunk) :
    renderChunks (cs ++ ds) = renderChunks cs ++ renderChunks ds := by
  simp [renderChunks]

theorem chunk_render_head (ch : Chunk) : ∃ t, ch.render = '\n' :: t := by
  cases ch with
  | inc n => exact ⟨_, rfl⟩
  | pad => exact ⟨[], rfl⟩

theorem renderChunks_head (cs : List Chunk) :
    renderChunks cs = [] ∨ (renderChunks cs).head? = some '\n' := by
  cases cs with
  | nil => exact Or.inl rfl
  | cons ch cs' =>
    right
    obtain ⟨t, ht⟩ := chunk_render_head ch
    rw [renderChunks_cons, ht]
    rfl

theorem head?_append_of_some {l m : Str} {c : Char} (h : l.head? = some c) :
    (l ++ m).head? = some c := by
  cases l with
  | nil => simp at h
  | cons a t => simpa using h

theorem chunk_chars {cs : List Chunk} {c : Char} (h : c ∈ renderChunks cs) :
    c.isDigit = true ∨ c ∈ ("\n\\include\x7bpage\x7d".toList : Str) := by
  induction cs with
  | nil => simp [renderChunks] at h
  | cons ch cs' ih =>
    rw [renderChunks_cons] at h
    rcases List.mem_append.1 h with h1 | h2
    · cases ch with
      | pad =>
        right
        simp only [Chunk.render, List.mem_singleton] at h1
        subst h1
        decide
      | inc n =>
        simp only [Chunk.render, incLine] at h1
        rcases List.mem_cons.1 h1 with rfl | h3
        · right; decide
        · rcases List.mem_append.1 h3 with h4 | h5
          · rcases List.mem_append.1 h4 with h6 | h7
            · right
              have hA : ∀ x ∈ includePat, x ∈ ("\n\\include\x7bpage\x7d".toList : Str) := by decide
              exact hA c h6
            · exact Or.inl (natDigits_all_digit h7)
          · right
            simp only [List.mem_singleton] at h5
            subst h5
            decide
    · exact ih h2

theorem no_endDoc_chunks (cs : List Chunk) :
    containsSub endDoc (renderChunks cs) = false := by
  rw [← Bool.not_eq_true]
  intro h
  have ho : ('o' : Char) ∈ renderChunks cs := mem_of_containsSub (by decide) h
  rcases chunk_chars ho with h1 | h2
  · exact absurd h1 (by decide)
  · exact absurd h2 (by decide)

theorem no_endDoc_open (cs : List Chunk) :
    containsSub endDoc (initialMainTex ++ renderChunks cs) = false := by
  apply containsSub_append_false
  · rfl
  · exact no_endDoc_chunks cs
  · apply span_discharge endDoc_tail_heads
    rcases renderChunks_head cs with h | h
    · exact Or.inl h
    · exact Or.inr (Or.inl h)

theorem no_endDoc_positions (cs : List Chunk) :
    ∀ i, i < (initialMainTex ++ renderChunks cs).length →
      ¬ (endDoc <+: ((initialMainTex ++ renderChunks cs) ++ (endDoc ++ ['\n'])).drop i) := by
  apply no_position_append (no_endDoc_open cs)
  apply span_discharge endDoc_tail_heads
  exact Or.inr (Or.inr rfl)

/-! ## Helper lemmas: the two reachable manifest shapes -/

theorem closedRender_eq (cs : List Chunk) :
    closedRender cs = (initialMainTex ++ renderChunks cs) ++ (endDoc ++ ['\n']) := by
  simp [closedRender, List.append_assoc]

theorem contains_closedRender (cs : List Chunk) :
    containsSub endDoc (closedRender cs) = true := by
  rw [closedRender_eq]
  exact containsSub_append_of_right (containsSub_self_append (by decide)) _

theorem lastIndexOf_closedRender (cs : List Chunk) :
    lastIndexOf endDoc (closedRender cs)
      = some (initialMainTex ++ renderChunks cs).length := by
  rw [closedRender_eq]
  have h0 : lastIndexOf endDoc (endDoc ++ ['\n']) = some 0 := by rfl
  simpa using lastIndexOf_append_some h0 (initialMainTex ++ renderChunks cs)

theorem countOcc_closedRender (cs : List Chunk) :
    countOcc endDoc (closedRender cs) = 1 := by
  rw [closedRender_eq, countOcc_append_left (no_endDoc_positions cs)]
  rfl

theorem closedRender_drop (cs : List Chunk) :
    (closedRender cs).drop (initialMainTex ++ renderChunks cs).length
      = endDoc ++ ['\n'] := by
  rw [closedRender_eq]
  exact List.drop_left _ _

theorem refsOf_preamble (b : Str)
    (hb : b = [] ∨ b.head? = some '\n' ∨ b.head? = some '\\') :
    refsOf (initialMainTex ++ b) = refsOf b := by
  apply refsOf_append_no_occ
  exact no_position_append (by rfl) (span_discharge includePat_tail_heads hb)

theorem refsOf_renderChunks (cs : List Chunk) :
    ∀ b : Str, refsOf (renderChunks cs ++ b) = chunkRefs cs ++ refsOf b := by
  induction cs with
  | nil => intro b; simp [renderChunks, chunkRefs]
  | cons ch cs' ih =>
    intro b
    rw [renderChunks_cons, List.append_assoc]
    cases ch with
    | pad =>
      show refsOf (['\n'] ++ (renderChunks cs' ++ b)) = _
      rw [List.singleton_append,
        refsOf_cons_none (parseRefAt_none_head (by decide) _), ih]
      simp [chunkRefs]
    | inc n =>
      show refsOf (incLine n ++ (renderChunks cs' ++ b)) = _
      rw [refsOf_incLine, ih]
      simp [chunkRefs]

theorem refsOf_openRender (cs : List Chunk) : refsOf (openRender cs) = chunkRefs cs := by
  rw [openRender, refsOf_preamble _ ?hb]
  · have h0 := refsOf_renderChunks cs []
    rw [List.append_nil, show refsOf ([] : Str) = [] from rfl, List.append_nil] at h0
    exact h0
  case hb =>
    rcases renderChunks_head cs with h | h
    · exact Or.inl h
    · exact Or.inr (Or.inl h)

theorem refsOf_closedRender (cs : List Chunk) : refsOf (closedRender cs) = chunkRefs cs := by
  have hE : closedRender cs = initialMainTex ++ (renderChunks cs ++ (endDoc ++ ['\n'])) := by
    simp [closedRender, List.append_assoc]
  rw [hE, refsOf_preamble _ ?hb, refsOf_renderChunks]
  · have hz : refsOf (endDoc ++ ['\n']) = [] := by rfl
    rw [hz, List.append_nil]
  case hb =>
    rcases renderChunks_head cs with h | h
    · rw [h, List.nil_append]
      exact Or.inr (Or.inr rfl)
    · exact Or.inr (Or.inl (head?_append_of_some h))

theorem no_endDoc_openRender (cs : List Chunk) :
    containsSub endDoc (openRender cs) = false := no_endDoc_open cs

/-! ## Helper lemmas: record and finalize transitions -/

theorem recordPage_eq_insert {s : Str} {idx : Nat} (h1 : containsSub endDoc s = true)
    (h2 : lastIndexOf endDoc s = some idx) (n : Nat) :
    recordPage s n = s.take idx ++ incLine n ++ ['\n'] ++ s.drop idx := by
  rw [recordPage, if_pos h1, h2]

theorem recordPage_eq_append {s : Str} (h1 : containsSub endDoc s = false) (n : Nat) :
    recordPage s n = s ++ incLine n := by
  rw [recordPage, if_neg (by simp [h1])]

theorem recordPage_openRender (cs : List Chunk) (n : Nat) :
    recordPage (openRender cs) n = openRender (cs ++ [Chunk.inc n]) := by
  rw [recordPage_eq_append (no_endDoc_openRender cs)]
  rw [openRender, openRender, renderChunks_append]
  simp [renderChunks, Chunk.render, List.append_assoc]

theorem recordPage_closedRender (cs : List Chunk) (n : Nat) :
    recordPage (closedRender cs) n = closedRender (cs ++ [Chunk.inc n, Chunk.pad]) := by
  rw [recordPage_eq_insert (contains_closedRender cs) (lastIndexOf_closedRender cs) n]
  rw [closedRender_eq, List.take_left, List.drop_left]
  rw [closedRender_eq, renderChunks_append]
  simp [renderChunks, Chunk.render, List.append_assoc]

theorem finalize_openRender (cs : List Chunk) :
    finalizeMainTex (openRender cs) = closedRender (cs ++ [Chunk.pad, Chunk.pad]) := by
  rw [finalizeMainTex, if_neg (by simp [no_endDoc_openRender cs])]
  rw [openRender, closedRender_eq, renderChunks_append]
  simp [renderChunks, Chunk.render, closeSuffix, List.append_assoc]

theorem finalize_closedRender (cs : List Chunk) :
    finalizeMainTex (closedRender cs) = closedRender cs := by
  rw [finalizeMainTex, if_pos (contains_closedRender cs)]

theorem chunkRefs_append_inc (cs : List Chunk) (n : Nat) :
    chunkRefs (cs ++ [Chunk.inc n]) = chunkRefs cs ++ [n] := by
  simp [chunkRefs]

theorem chunkRefs_append_inc_pad (cs : List Chunk) (n : Nat) :
    chunkRefs (cs ++ [Chunk.inc n, Chunk.pad]) = chunkRefs cs ++ [n] := by
  simp [chunkRefs]

theorem chunkRefs_append_pads (cs : List Chunk) :
    chunkRefs (cs ++ [Chunk.pad, Chunk.pad]) = chunkRefs cs := by
  simp [chunkRefs]

theorem pairwise_lt_append_single {L : List Nat} {n : Nat}
    (h : List.Pairwise (· < ·) L) (hall : ∀ r ∈ L, r < n) :
    List.Pairwise (· < ·) (L ++ [n]) := by
  rw [List.pairwise_append]
  refine ⟨h, List.pairwise_singleton _ _, ?_⟩
  intro x hx y hy
  simp only [List.mem_singleton] at hy
  subst hy
  exact hall x hx

/-- Every reachable manifest is the preamble plus a chunk body (open), or
that followed by the closing marker and a newline (closed); its recorded
references are strictly increasing and bounded by the reachability index. -/
theorem mreach_form {s : Str} {lo : Nat} (h : MReach s lo) :
    ∃ cs : List Chunk,
      (s = openRender cs ∨ s = closedRender cs) ∧
        List.Pairwise (· < ·) (chunkRefs cs) ∧ ∀ r ∈ chunkRefs cs, r ≤ lo := by
  induction h with
  | init =>
    refine ⟨[], Or.inl ?_, by simp [chunkRefs], by simp [chunkRefs]⟩
    simp [openRender, renderChunks]
  | @record s lo n _ hlt ih =>
    obtain ⟨cs, hform, hpw, hle⟩ := ih
    rcases hform with rfl | rfl
    · refine ⟨cs ++ [Chunk.inc n], Or.inl (recordPage_openRender cs n), ?_, ?_⟩
      · rw [chunkRefs_append_inc]
        exact pairwise_lt_append_single hpw fun r hr => lt_of_le_of_lt (hle r hr) hlt
      · intro r hr
        rw [chunkRefs_append_inc] at hr
        rcases List.mem_append.1 hr with h1 | h2
        · exact le_of_lt (lt_of_le_of_lt (hle r h1) hlt)
        · simp only [List.mem_singleton] at h2; omega
    · refine ⟨cs ++ [Chunk.inc n, Chunk.pad], Or.inr (recordPage_closedRender cs n), ?_, ?_⟩
      · rw [chunkRefs_append_inc_pad]
        exact pairwise_lt_append_single hpw fun r hr => lt_of_le_of_lt (hle r hr) hlt
      · intro r hr
        rw [chunkRefs_append_inc_pad] at hr
        rcases List.mem_append.1 hr with h1 | h2
        · exact le_of_lt (lt_of_le_of_lt (hle r h1) hlt)
        · simp only [List.mem_singleton] at h2; omega
  | fin _ ih =>
    obtain ⟨cs, hform, hpw, hle⟩ := ih
    rcases hform with rfl | rfl
    · exact ⟨cs ++ [Chunk.pad, Chunk.pad], Or.inr (finalize_openRender cs),
        by rwa [chunkRefs_append_pads], by rwa [chunkRefs_append_pads]⟩
    · exact ⟨cs, Or.inr (finalize_closedRender cs), hpw, hle⟩

/-! ## Helper lemmas: the resume computation -/

theorem foldl_max_init {l : List Nat} {a : Nat} : a ≤ l.foldl max a := by
  induction l generalizing a with
  | nil => exact le_refl a
  | cons x l' ih => exact le_trans (Nat.le_max_left a x) ih

theorem foldl_max_le {l : List Nat} {a x : Nat} (h : x ∈ l) : x ≤ l.foldl max a := by
  induction l generalizing a with
  | nil => simp at h
  | cons y l' ih =>
    rcases List.mem_cons.1 h with rfl | h2
    · exact le_trans (Nat.le_max_right a x) foldl_max_init
    · exact ih h2

theorem foldl_max_cases {l : List Nat} {a : Nat} :
    l.foldl max a = a ∨ l.foldl max a ∈ l := by
  induction l generalizing a with
  | nil => exact Or.inl rfl
  | cons x l' ih =>
    rcases @ih (max a x) with h | h
    · rw [List.foldl_cons, h]
      rcases Nat.le_total a x with h1 | h1
      · exact Or.inr (by rw [Nat.max_eq_right h1]; exact List.mem_cons_self x l')
      · exact Or.inl (Nat.max_eq_left h1)
    · exact Or.inr (List.mem_cons_of_mem x h)

theorem getLast_of_empty {dir : List Str} (h : dir.filter isPageTexName = []) :
    getLastProcessedPageByTex dir = 0 := by
  rw [getLastProcessedPageByTex]
  simp [h]

theorem getLast_of_nonempty {dir : List Str} (h : dir.filter isPageTexName ≠ []) :
    getLastProcessedPageByTex dir
      = ((dir.filter isPageTexName).map extractNum).foldl max 0 := by
  rw [getLastProcessedPageByTex]
  have hne : (dir.filter isPageTexName).isEmpty = false := by
    rw [← Bool.not_eq_true, List.isEmpty_iff]
    exact h
  simp only [hne, Bool.false_eq_true, if_false]

theorem getLast_le {dir : List Str} {f : Str} (hf : f ∈ dir)
    (hp : isPageTexName f = true) :
    extractNum f ≤ getLastProcessedPageByTex dir := by
  have hmem : f ∈ dir.filter isPageTexName := List.mem_filter.2 ⟨hf, hp⟩
  rw [getLast_of_nonempty (by intro h0; rw [h0] at hmem; simp at hmem)]
  exact foldl_max_le (List.mem_map_of_mem extractNum hmem)

theorem getLast_mem {dir : List Str} (h : dir.filter isPageTexName ≠ []) :
    ∃ f ∈ dir, isPageTexName f = true ∧
      extractNum f = getLastProcessedPageByTex dir := by
  rw [getLast_of_nonempty h]
  rcases @foldl_max_cases ((dir.filter isPageTexName).map extractNum) 0 with h0 | hmem
  · obtain ⟨f0, hf0⟩ := List.exists_mem_of_ne_nil _ h
    have hle : extractNum f0 ≤ ((dir.filter isPageTexName).map extractNum).foldl max 0 :=
      foldl_max_le (List.mem_map_of_mem extractNum hf0)
    rw [h0] at hle ⊢
    have hmf := List.mem_filter.1 hf0
    exact ⟨f0, hmf.1, hmf.2, by omega⟩
  · obtain ⟨f0, hf0, hval⟩ := List.mem_map.1 hmem
    have hmf := List.mem_filter.1 hf0
    exact ⟨f0, hmf.1, hmf.2, hval⟩

theorem getLast_perm {d1 d2 : List Str} (h : d1.Perm d2) :
    getLastProcessedPageByTex d1 = getLastProcessedPageByTex d2 := by
  have hf : (d1.filter isPageTexName).Perm (d2.filter isPageTexName) := h.filter _
  by_cases he : d1.filter isPageTexName = []
  · have he2 : d2.filter isPageTexName = [] := by
      rw [he] at hf
      exact hf.symm.eq_nil
    rw [getLast_of_empty he, getLast_of_empty he2]
  · have he2 : d2.filter isPageTexName ≠ [] := by
      intro h0
      rw [h0] at hf
      exact he hf.eq_nil
    rw [getLast_of_nonempty he, getLast_of_nonempty he2]
    exact (hf.map extractNum).foldl_eq' (fun x _ y _ z => Max.right_comm z x y) 0

theorem getLast_filter_congr {d1 d2 : List Str}
    (h : d1.filter isPageTexName = d2.filter isPageTexName) :
    getLastProcessedPageByTex d1 = getLastProcessedPageByTex d2 := by
  rw [getLastProcessedPageByTex, getLastProcessedPageByTex, h]

/-! ## Helper lemmas: the retry controller -/

theorem runRetryLoop_exhausted {maxR a : Nat} {s : List Nat}
    {outs : List AttemptResult} (ha : maxR < a) :
    runRetryLoop maxR a s outs = .failed s outs := by
  rw [runRetryLoop.eq_def]
  exact if_pos ha

theorem runRetryLoop_ok {maxR a : Nat} {s : List Nat} {c : Str}
    {rest : List AttemptResult} (ha : a ≤ maxR) :
    runRetryLoop maxR a s (.ok c :: rest) = .succeeded a s c rest := by
  conv_lhs => rw [runRetryLoop]
  rw [if_neg (Nat.not_lt.2 ha)]

theorem runRetryLoop_quota_step {maxR a : Nat} {s : List Nat} {e : Str}
    {rest : List AttemptResult} (hq : isQuotaError e = true) (ha : a ≤ maxR) :
    runRetryLoop maxR a s (.err e :: rest)
      = runRetryLoop maxR a (s ++ [quotaDelaySeconds e]) rest := by
  conv_lhs => rw [runRetryLoop]
  rw [if_neg (Nat.not_lt.2 ha)]
  show (if isQuotaError e = true then
      runRetryLoop maxR a (s ++ [quotaDelaySeconds e]) rest
    else runRetryLoop maxR (a + 1) s rest) = _
  rw [if_pos hq]

theorem runRetryLoop_err_step {maxR a : Nat} {s : List Nat} {e : Str}
    {rest : List AttemptResult} (hq : isQuotaError e = false) (ha : a ≤ maxR) :
    runRetryLoop maxR a s (.err e :: rest) = runRetryLoop maxR (a + 1) s rest := by
  conv_lhs => rw [runRetryLoop]
  rw [if_neg (Nat.not_lt.2 ha)]
  show (if isQuotaError e = true then
      runRetryLoop maxR a (s ++ [quotaDelaySeconds e]) rest
    else runRetryLoop maxR (a + 1) s rest) = _
  rw [if_neg (by simp [hq])]

theorem runRetryLoop_three_errors {e1 e2 e3 : Str} {rest : List AttemptResult}
    (h1 : isQuotaError e1 = false) (h2 : isQuotaError e2 = false)
    (h3 : isQuotaError e3 = false) :
    runRetryLoop 3 1 [] (.err e1 :: .err e2 :: .err e3 :: rest)
      = .failed [] rest := by
  rw [runRetryLoop_err_step h1 (by omega), runRetryLoop_err_step h2 (by omega),
    runRetryLoop_err_step h3 (by omega), runRetryLoop_exhausted (by omega)]

theorem runRetryLoop_quota_many {maxR a : Nat} {e : Str}
    (hq : isQuotaError e = true) (ha : a ≤ maxR) :
    ∀ (k : Nat) (s : List Nat) (rest : List AttemptResult),
      runRetryLoop maxR a s (List.replicate k (.err e) ++ rest)
        = runRetryLoop maxR a (s ++ List.replicate k (quotaDelaySeconds e)) rest := by
  intro k
  induction k with
  | zero => intro s rest; simp
  | succ j ih =>
    intro s rest
    rw [List.replicate_succ, List.cons_append, runRetryLoop_quota_step hq ha, ih]
    rw [List.append_assoc, List.singleton_append, List.replicate_succ]

/-! ## Helper lemmas: driver building blocks -/

theorem mem_writeName_self (dir : List Str) (f : Str) : f ∈ writeName dir f := by
  rw [writeName]
  split
  · assumption
  · simp

theorem mem_writeName_of_mem {dir : List Str} {g : Str} (h : g ∈ dir) (f : Str) :
    g ∈ writeName dir f := by
  rw [writeName]
  split
  · exact h
  · simp [h]

theorem writeName_nodup {dir : List Str} (h : dir.Nodup) (f : Str) :
    (writeName dir f).Nodup := by
  rw [writeName]
  split
  · exact h
  · next hf =>
    rw [List.nodup_append]
    exact ⟨h, List.nodup_singleton f, by simpa [List.disjoint_singleton] using hf⟩

theorem writeName_filter_of_false {dir : List Str} {f : Str}
    (hf : isPageTexName f = false) :
    (writeName dir f).filter isPageTexName = dir.filter isPageTexName := by
  rw [writeName]
  split
  · rfl
  · rw [List.filter_append]
    simp [hf]

theorem mem_renderSideEffects_of_mem {dir : List Str} {g : Str} (h : g ∈ dir)
    (N p : Nat) : g ∈ renderSideEffects dir N p := by
  rw [renderSideEffects]
  split <;> split <;> split
  all_goals repeat apply mem_writeName_of_mem
  all_goals exact h

theorem renderSideEffects_nodup {dir : List Str} (h : dir.Nodup) (N p : Nat) :
    (renderSideEffects dir N p).Nodup := by
  rw [renderSideEffects]
  split <;> split <;> split
  all_goals repeat apply writeName_nodup
  all_goals exact h

theorem renderSideEffects_filter (dir : List Str) (N p : Nat) :
    (renderSideEffects dir N p).filter isPageTexName = dir.filter isPageTexName := by
  rw [renderSideEffects]
  split <;> split <;> split <;>
    simp only [writeName_filter_of_false (isPageTexName_pngName _)]

theorem setup_noop {st : DriverState} (h : mainTexName ∈ st.dir) :
    setupWorkspace st = st := by
  rw [setupWorkspace, if_pos h]

theorem setup_mainTex_mem (st : DriverState) :
    mainTexName ∈ (setupWorkspace st).dir := by
  rw [setupWorkspace]
  split
  · assumption
  · simp

theorem setup_filter (st : DriverState) :
    (setupWorkspace st).dir.filter isPageTexName = st.dir.filter isPageTexName := by
  rw [setupWorkspace]
  split
  · rfl
  · show (st.dir ++ [mainTexName]).filter isPageTexName = _
    rw [List.filter_append]
    simp [isPageTexName_mainTexName]

theorem driverPage_succeeded {maxR N : Nat} {trace : List AttemptResult}
    {p : Nat} {st : DriverState} {a : Nat} {slp : List Nat} {c : Str}
    {rem : List AttemptResult}
    (h : runRetryLoop maxR 1 [] trace = .succeeded a slp c rem) :
    driverPage maxR N trace p st
      = ({ st with
            dir := writeName (renderSideEffects st.dir N p) (pageFileName p),
            mainTex := recordPage st.mainTex p }, true) := by
  rw [driverPage, h]

theorem driverPage_failed {maxR N : Nat} {trace : List AttemptResult}
    {p : Nat} {st : DriverState} {slp : List Nat} {rem : List AttemptResult}
    (h : runRetryLoop maxR 1 [] trace = .failed slp rem) :
    driverPage maxR N trace p st
      = ({ st with
            dir := renderSideEffects st.dir N p,
            notified := st.notified ++ [notifyMsg p maxR] }, false) := by
  rw [driverPage, h]

theorem driverPage_ranOut {maxR N : Nat} {trace : List AttemptResult}
    {p : Nat} {st : DriverState} {a : Nat} {slp : List Nat}
    (h : runRetryLoop maxR 1 [] trace = .ranOut a slp) :
    driverPage maxR N trace p st
      = ({ st with dir := renderSideEffects st.dir N p }, false) := by
  rw [driverPage, h]

theorem driverLoop_zero (maxR N : Nat) (traces : Nat → List AttemptResult)
    (pageNum : Nat) (st : DriverState) :
    driverLoop maxR N traces 0 pageNum st = (st, []) := rfl

theorem driverLoop_stop {N pageNum : Nat} (maxR : Nat)
    (traces : Nat → List AttemptResult) (fuel : Nat) (st : DriverState)
    (h : N < pageNum) :
    driverLoop maxR N traces (fuel + 1) pageNum st = (st, []) := by
  rw [driverLoop, if_pos h]

theorem driverLoop_cont {maxR N pageNum : Nat}
    {traces : Nat → List AttemptResult} {st st' : DriverState} (fuel : Nat)
    (hle : pageNum ≤ N)
    (h : driverPage maxR N (traces pageNum) pageNum st = (st', true)) :
    driverLoop maxR N traces (fuel + 1) pageNum st
      = ((driverLoop maxR N traces fuel (pageNum + 1) st').1,
          pageNum :: (driverLoop maxR N traces fuel (pageNum + 1) st').2) := by
  rw [driverLoop, if_neg (Nat.not_lt.2 hle), h]

theorem driverLoop_halt {maxR N pageNum : Nat}
    {traces : Nat → List AttemptResult} {st st' : DriverState} (fuel : Nat)
    (hle : pageNum ≤ N)
    (h : driverPage maxR N (traces pageNum) pageNum st = (st', false)) :
    driverLoop maxR N traces (fuel + 1) pageNum st = (st', [pageNum]) := by
  rw [driverLoop, if_neg (Nat.not_lt.2 hle), h]

/-- Master invariant of the page loop: the manifest keeps one of the two
reachable shapes with strictly increasing references, every reference is
backed by its page unit on disk, the listing stays duplicate-free and only
grows, and every attempted page is at or past the start page. -/
theorem driverLoop_spec (maxR N : Nat) (traces : Nat → List AttemptResult) :
    ∀ (fuel pageNum : Nat) (st : DriverState) (cs : List Chunk),
      (st.mainTex = openRender cs ∨ st.mainTex = closedRender cs) →
      List.Pairwise (· < ·) (chunkRefs cs) →
      (∀ r ∈ chunkRefs cs, r < pageNum) →
      (∀ r ∈ chunkRefs cs, pageFileName r ∈ st.dir) →
      st.dir.Nodup →
      ∃ cs' : List Chunk,
        ((driverLoop maxR N traces fuel pageNum st).1.mainTex = openRender cs' ∨
          (driverLoop maxR N traces fuel pageNum st).1.mainTex = closedRender cs') ∧
        List.Pairwise (· < ·) (chunkRefs cs') ∧
        (∀ r ∈ chunkRefs cs',
          pageFileName r ∈ (driverLoop maxR N traces fuel pageNum st).1.dir) ∧
        (driverLoop maxR N traces fuel pageNum st).1.dir.Nodup ∧
        (∀ g ∈ st.dir, g ∈ (driverLoop maxR N traces fuel pageNum st).1.dir) ∧
        (∀ p ∈ (driverLoop maxR N traces fuel pageNum st).2, pageNum ≤ p) := by
  intro fuel
  induction fuel with
  | zero =>
    intro pageNum st cs hform hpw hlt hfile hnd
    rw [driverLoop_zero]
    exact ⟨cs, hform, hpw, hfile, hnd, fun g hg => hg, by simp⟩
  | succ f ih =>
    intro pageNum st cs hform hpw hlt hfile hnd
    by_cases hgt : N < pageNum
    · rw [driverLoop_stop maxR traces f st hgt]
      exact ⟨cs, hform, hpw, hfile, hnd, fun g hg => hg, by simp⟩
    have hle : pageNum ≤ N := Nat.not_lt.1 hgt
    rcases hrun : runRetryLoop maxR 1 [] (traces pageNum) with
      ⟨a, slp, c, rem⟩ | ⟨slp, rem⟩ | ⟨a, slp⟩
    · -- page succeeded: page unit written, manifest updated, loop continues
      rw [driverLoop_cont f hle (driverPage_succeeded hrun)]
      rcases hform with hO | hC
      · have hrec : recordPage st.mainTex pageNum = openRender (cs ++ [Chunk.inc pageNum]) := by
          rw [hO]; exact recordPage_openRender cs pageNum
        obtain ⟨cs'', hf2, hp2, hfl2, hnd2, hmono2, hatt2⟩ :=
          ih (pageNum + 1)
            { st with
              dir := writeName (renderSideEffects st.dir N pageNum) (pageFileName pageNum),
              mainTex := recordPage st.mainTex pageNum }
            (cs ++ [Chunk.inc pageNum])
            (Or.inl hrec)
            (by rw [chunkRefs_append_inc]; exact pairwise_lt_append_single hpw hlt)
            (by
              intro r hr
              rw [chunkRefs_append_inc] at hr
              rcases List.mem_append.1 hr with h1 | h2
              · exact Nat.lt_succ_of_lt (hlt r h1)
              · simp only [List.mem_singleton] at h2; omega)
            (by
              intro r hr
              rw [chunkRefs_append_inc] at hr
              rcases List.mem_append.1 hr with h1 | h2
              · exact mem_writeName_of_mem
                  (mem_renderSideEffects_of_mem (hfile r h1) N pageNum) _
              · simp only [List.mem_singleton] at h2
                subst h2
                exact mem_writeName_self _ _)
            (writeName_nodup (renderSideEffects_nodup hnd N pageNum) _)
        refine ⟨cs'', hf2, hp2, hfl2, hnd2, ?_, ?_⟩
        · intro g hg
          exact hmono2 g (mem_writeName_of_mem
            (mem_renderSideEffects_of_mem hg N pageNum) _)
        · intro p hp
          rcases List.mem_cons.1 hp with rfl | hp2
          · exact le_refl p
          · exact Nat.le_of_succ_le (hatt2 p hp2)
      · have hrec : recordPage st.mainTex pageNum
            = closedRender (cs ++ [Chunk.inc pageNum, Chunk.pad]) := by
          rw [hC]; exact recordPage_closedRender cs pageNum
        obtain ⟨cs'', hf2, hp2, hfl2, hnd2, hmono2, hatt2⟩ :=
          ih (pageNum + 1)
            { st with
              dir := writeName (renderSideEffects st.dir N pageNum) (pageFileName pageNum),
              mainTex := recordPage st.mainTex pageNum }
            (cs ++ [Chunk.inc pageNum, Chunk.pad])
            (Or.inr hrec)
            (by rw [chunkRefs_append_inc_pad]; exact pairwise_lt_append_single hpw hlt)
            (by
              intro r hr
              rw [chunkRefs_append_inc_pad] at hr
              rcases List.mem_append.1 hr with h1 | h2
              · exact Nat.lt_succ_of_lt (hlt r h1)
              · simp only [List.mem_singleton] at h2; omega)
            (by
              intro r hr
              rw [chunkRefs_append_inc_pad] at hr
              rcases List.mem_append.1 hr with h1 | h2
              · exact mem_writeName_of_mem
                  (mem_renderSideEffects_of_mem (hfile r h1) N pageNum) _
              · simp only [List.mem_singleton] at h2
                subst h2
                exact mem_writeName_self _ _)
            (writeName_nodup (renderSideEffects_nodup hnd N pageNum) _)
        refine ⟨cs'', hf2, hp2, hfl2, hnd2, ?_, ?_⟩
        · intro g hg
          exact hmono2 g (mem_writeName_of_mem
            (mem_renderSideEffects_of_mem hg N pageNum) _)
        · intro p hp
          rcases List.mem_cons.1 hp with rfl | hp2
          · exact le_refl p
          · exact Nat.le_of_succ_le (hatt2 p hp2)
    · -- page failed after retry exhaustion: notify and halt
      rw [driverLoop_halt f hle (driverPage_failed hrun)]
      refine ⟨cs, hform, hpw, ?_, renderSideEffects_nodup hnd N pageNum, ?_, ?_⟩
      · intro r hr
        exact mem_renderSideEffects_of_mem (hfile r hr) N pageNum
      · intro g hg
        exact mem_renderSideEffects_of_mem hg N pageNum
      · intro p hp
        simp only [List.mem_singleton] at hp
        subst hp
        exact le_refl p
    · -- trace exhausted (modelling artifact): halt without notification
      rw [driverLoop_halt f hle (driverPage_ranOut hrun)]
      refine ⟨cs, hform, hpw, ?_, renderSideEffects_nodup hnd N pageNum, ?_, ?_⟩
      · intro r hr
        exact mem_renderSideEffects_of_mem (hfile r hr) N pageNum
      · intro g hg
        exact mem_renderSideEffects_of_mem hg N pageNum
      · intro p hp
        simp only [List.mem_singleton] at hp
        subst hp
        exact le_refl p

theorem processPdf_unfold (maxR N : Nat) (traces : Nat → List AttemptResult)
    (st0 : DriverState) :
    processPdfDocument maxR N traces st0
      = ({ dir := (driverLoop maxR N traces (N + 1)
              (getLastProcessedPageByTex (setupWorkspace st0).dir + 1)
              (setupWorkspace st0)).1.dir,
           mainTex := finalizeMainTex (driverLoop maxR N traces (N + 1)
              (getLastProcessedPageByTex (setupWorkspace st0).dir + 1)
              (setupWorkspace st0)).1.mainTex,
           notified := (driverLoop maxR N traces (N + 1)
              (getLastProcessedPageByTex (setupWorkspace st0).dir + 1)
              (setupWorkspace st0)).1.notified },
         (driverLoop maxR N traces (N + 1)
            (getLastProcessedPageByTex (setupWorkspace st0).dir + 1)
            (setupWorkspace st0)).2) := rfl

/-- A full run finalizes to a closed manifest keeping all invariants;
every attempted page is past the resume point. -/
theorem processPdf_spec (maxR N : Nat) (traces : Nat → List AttemptResult)
    (st0 : DriverState) (cs : List Chunk)
    (hform : (setupWorkspace st0).mainTex = openRender cs ∨
      (setupWorkspace st0).mainTex = closedRender cs)
    (hpw : List.Pairwise (· < ·) (chunkRefs cs))
    (hlt : ∀ r ∈ chunkRefs cs,
      r < getLastProcessedPageByTex (setupWorkspace st0).dir + 1)
    (hfile : ∀ r ∈ chunkRefs cs, pageFileName r ∈ (setupWorkspace st0).dir)
    (hnd : (setupWorkspace st0).dir.Nodup) :
    ∃ cs' : List Chunk,
      (processPdfDocument maxR N traces st0).1.mainTex = closedRender cs' ∧
      List.Pairwise (· < ·) (chunkRefs cs') ∧
      (∀ r ∈ chunkRefs cs',
        pageFileName r ∈ (processPdfDocument maxR N traces st0).1.dir) ∧
      (processPdfDocument maxR N traces st0).1.dir.Nodup ∧
      (∀ g ∈ (setupWorkspace st0).dir,
        g ∈ (processPdfDocument maxR N traces st0).1.dir) ∧
      (∀ p ∈ (processPdfDocument maxR N traces st0).2,
        getLastProcessedPageByTex (setupWorkspace st0).dir + 1 ≤ p) := by
  obtain ⟨cs', hf, hp, hfl, hnd', hmono, hatt⟩ :=
    driverLoop_spec maxR N traces (N + 1)
      (getLastProcessedPageByTex (setupWorkspace st0).dir + 1) (setupWorkspace st0)
      cs hform hpw hlt hfile hnd
  rw [processPdf_unfold]
  rcases hf with hO | hC
  · refine ⟨cs' ++ [Chunk.pad, Chunk.pad], ?_, by rwa [chunkRefs_append_pads], ?_,
      hnd', hmono, hatt⟩
    · show finalizeMainTex _ = _
      rw [hO, finalize_openRender]
    · intro r hr
      rw [chunkRefs_append_pads] at hr
      exact hfl r hr
  · refine ⟨cs', ?_, hp, hfl, hnd', hmono, hatt⟩
    show finalizeMainTex _ = _
    rw [hC, finalize_closedRender]

theorem driverLoop_head {maxR N pageNum : Nat} {traces : Nat → List AttemptResult}
    (fuel : Nat) (st : DriverState) (hle : pageNum ≤ N) :
    (driverLoop maxR N traces (fuel + 1) pageNum st).2.head? = some pageNum := by
  rcases hrun : runRetryLoop maxR 1 [] (traces pageNum) with
    ⟨a, slp, c, rem⟩ | ⟨slp, rem⟩ | ⟨a, slp⟩
  · rw [driverLoop_cont fuel hle (driverPage_succeeded hrun)]; rfl
  · rw [driverLoop_halt fuel hle (driverPage_failed hrun)]; rfl
  · rw [driverLoop_halt fuel hle (driverPage_ranOut hrun)]; rfl

theorem processPdf_head {maxR N : Nat} {traces : Nat → List AttemptResult}
    {st0 : DriverState}
    (hle : getLastProcessedPageByTex (setupWorkspace st0).dir + 1 ≤ N) :
    (processPdfDocument maxR N traces st0).2.head?
      = some (getLastProcessedPageByTex (setupWorkspace st0).dir + 1) := by
  rw [processPdf_unfold]
  exact driverLoop_head N (setupWorkspace st0) hle

/-! ## Helper lemmas: context window and recognition adapter -/

theorem getImageBuffer_out_of_range {N p : Nat} (h : p < 1 ∨ N < p)
    (render : Nat → Option (List Nat)) :
    getImageBuffer render N p = none := by
  rw [getImageBuffer, if_pos h]

theorem getImageBuffer_in_range {N p : Nat} (h1 : 1 ≤ p) (h2 : p ≤ N)
    (render : Nat → Option (List Nat)) :
    getImageBuffer render N p
      = match render p with
        | some buf => if 0 < buf.length then some buf else none
        | none => none := by
  rw [getImageBuffer, if_neg (by omega)]

theorem getImageBuffer_some {render : Nat → Option (List Nat)} {N p : Nat}
    (h1 : 1 ≤ p) (h2 : p ≤ N) {b : List Nat} (hb : render p = some b)
    (hlen : 0 < b.length) :
    getImageBuffer render N p = some b := by
  rw [getImageBuffer_in_range h1 h2, hb]
  show (if 0 < b.length then some b else none) = some b
  rw [if_pos hlen]

theorem getImageBuffer_empty {render : Nat → Option (List Nat)} {N p : Nat}
    (h1 : 1 ≤ p) (h2 : p ≤ N) (hb : render p = some []) :
    getImageBuffer render N p = none := by
  rw [getImageBuffer_in_range h1 h2, hb]
  rfl

theorem getImageBuffer_isSome {render : Nat → Option (List Nat)} {N p : Nat}
    (hr : ∀ q, 1 ≤ q → q ≤ N → ∃ b, render q = some b ∧ 0 < b.length)
    (h1 : 1 ≤ p) (h2 : p ≤ N) :
    (getImageBuffer render N p).isSome = true := by
  obtain ⟨b, hb, hlen⟩ := hr p h1 h2
  rw [getImageBuffer_some h1 h2 hb hlen]
  rfl

theorem imageParts_none_cons (bufs : List (Option (List Nat))) :
    imageParts (none :: bufs) = imageParts bufs := by
  simp [imageParts]

theorem imageParts_some_cons (b : List Nat) (bufs : List (Option (List Nat))) :
    imageParts (some b :: bufs)
      = fileToGenerativePart b pngMime :: imageParts bufs := by
  simp [imageParts]

theorem imageParts_append_none (bufs : List (Option (List Nat))) :
    imageParts (bufs ++ [none]) = imageParts bufs := by
  simp [imageParts]

theorem attemptPage_missing {render : Nat → Option (List Nat)} {hasKey : Bool}
    {call : List GenerativePart → Except Str (Option Str)}
    {parse : Str → Option (Option Str)} {N p : Nat}
    (h : getImageBuffer render N p = none) :
    attemptPage render hasKey call parse N p = .error missingImgMsg := by
  simp only [attemptPage, h]

theorem attemptPage_curr_some {render : Nat → Option (List Nat)} {hasKey : Bool}
    {call : List GenerativePart → Except Str (Option Str)}
    {parse : Str → Option (Option Str)} {N p : Nat} {c : List Nat}
    (h : getImageBuffer render N p = some c) :
    attemptPage render hasKey call parse N p
      = processPageWithGemini hasKey call parse
          [getImageBuffer render N (p - 1), some c, getImageBuffer render N (p + 1)] := by
  simp only [attemptPage, h]

theorem gemini_no_key {call : List GenerativePart → Except Str (Option Str)}
    {parse : Str → Option (Option Str)} {bufs : List (Option (List Nat))} :
    processPageWithGemini false call parse bufs = .error geminiKeyMsg := by
  rw [processPageWithGemini, if_pos rfl]

theorem gemini_call_error {call : List GenerativePart → Except Str (Option Str)}
    {parse : Str → Option (Option Str)} {bufs : List (Option (List Nat))} {e : Str}
    (h : call (imageParts bufs) = .error e) :
    processPageWithGemini true call parse bufs = .error apiFailMsg := by
  rw [processPageWithGemini, if_neg (by simp), h]

theorem gemini_text_not_string {call : List GenerativePart → Except Str (Option Str)}
    {parse : Str → Option (Option Str)} {bufs : List (Option (List Nat))}
    (h : call (imageParts bufs) = .ok none) :
    processPageWithGemini true call parse bufs = .error apiFailMsg := by
  rw [processPageWithGemini, if_neg (by simp), h]

theorem gemini_parse_throws {call : List GenerativePart → Except Str (Option Str)}
    {parse : Str → Option (Option Str)} {bufs : List (Option (List Nat))} {txt : Str}
    (h : call (imageParts bufs) = .ok (some txt)) (hp : parse txt = none) :
    processPageWithGemini true call parse bufs = .error apiFailMsg := by
  rw [processPageWithGemini, if_neg (by simp), h]
  show (match parse txt with
    | none => Except.error apiFailMsg
    | some content => Except.ok (content.getD [])) = _
  rw [hp]

theorem gemini_parse_ok {call : List GenerativePart → Except Str (Option Str)}
    {parse : Str → Option (Option Str)} {bufs : List (Option (List Nat))} {txt : Str}
    {content : Option Str}
    (h : call (imageParts bufs) = .ok (some txt)) (hp : parse txt = some content) :
    processPageWithGemini true call parse bufs = .ok (content.getD []) := by
  rw [processPageWithGemini, if_neg (by simp), h]
  show (match parse txt with
    | none => Except.error apiFailMsg
    | some content => Except.ok (content.getD [])) = _
  rw [hp]

theorem isPageTexName_form {ds : Str} (hne : ds ≠ [])
    (hdig : ∀ c ∈ ds, c.isDigit = true) :
    isPageTexName (pageLit ++ ds ++ texLit) = true := by
  have hlen : 0 < ds.length := List.length_pos.2 hne
  rw [isPageTexName]
  have h1 : pageLit.isPrefixOf (pageLit ++ ds ++ texLit) = true := by
    rw [List.isPrefixOf_iff_prefix, List.append_assoc]
    exact List.prefix_append pageLit _
  have h2 : texLit.isSuffixOf (pageLit ++ ds ++ texLit) = true := by
    rw [List.isSuffixOf_iff_suffix]
    exact List.suffix_append _ texLit
  have hflen : (pageLit ++ ds ++ texLit).length = 8 + ds.length := by
    simp [pageLit, texLit]
    omega
  have h3 : decide (8 < (pageLit ++ ds ++ texLit).length) = true := by
    rw [hflen]
    simp only [decide_eq_true_eq]
    omega
  have h4 : (((pageLit ++ ds ++ texLit).drop 4).take
      ((pageLit ++ ds ++ texLit).length - 8)).all Char.isDigit = true := by
    have hdrop : (pageLit ++ ds ++ texLit).drop 4 = ds ++ texLit := by
      rw [List.append_assoc]
      exact List.drop_left' (by decide)
    rw [hdrop, hflen]
    have he : 8 + ds.length - 8 = ds.length := by omega
    rw [he, List.take_left]
    exact List.all_eq_true.2 fun c hc => hdig c hc
  rw [h1, h2, h3, h4]
  rfl

/-! ## Claim theorems -/

/-- C1: the Resume Tracker (`getLastProcessedPageByTex`) together with the
driver's start computation starts processing at one more than the largest
existing page-unit index, and at page 1 when no page unit exists; the
result is a true maximum — every discovered index is below the start page,
the start page is one past an actually discovered index, and the value is
invariant under any permutation of the filesystem listing order; when the
start page is in range, the driver's loop attempts it first. -/
theorem C1_resume_tracker (dir : List Str) :
    (dir.filter isPageTexName = [] → determineStartPage dir = 1) ∧
    (∀ f ∈ dir, isPageTexName f = true → extractNum f < determineStartPage dir) ∧
    (dir.filter isPageTexName ≠ [] →
      ∃ f ∈ dir, isPageTexName f = true ∧
        extractNum f + 1 = determineStartPage dir) ∧
    (∀ k, pageFileName k ∈ dir → k < determineStartPage dir) ∧
    (∀ dir', dir.Perm dir' → determineStartPage dir' = determineStartPage dir) ∧
    (∀ (maxR N : Nat) (traces : Nat → List AttemptResult) (st0 : DriverState),
      st0.dir = dir → mainTexName ∈ dir → determineStartPage dir ≤ N →
      (processPdfDocument maxR N traces st0).2.head?
        = some (determineStartPage dir)) := by
  refine ⟨?_, ?_, ?_, ?_, ?_, ?_⟩
  · intro h
    rw [determineStartPage, getLast_of_empty h]
  · intro f hf hp
    rw [determineStartPage]
    have := getLast_le hf hp
    omega
  · intro h
    obtain ⟨f, hf, hp, he⟩ := getLast_mem h
    exact ⟨f, hf, hp, by rw [determineStartPage, he]⟩
  · intro k hk
    rw [determineStartPage]
    have := getLast_le hk (isPageTexName_pageFileName k)
    rw [extractNum_pageFileName] at this
    omega
  · intro dir' hperm
    rw [determineStartPage, determineStartPage, getLast_perm hperm]
  · intro maxR N traces st0 hdir hmem hle
    have hnoop : setupWorkspace st0 = st0 := setup_noop (by rw [hdir]; exact hmem)
    have hh : getLastProcessedPageByTex (setupWorkspace st0).dir + 1 ≤ N := by
      rw [hnoop, hdir]; exact hle
    rw [processPdf_head hh, hnoop, hdir]
    rfl

/-- C1 witness: a concrete listing with page units 2 and 10 plus unrelated
files resumes at page 11, past the discovered index 2. -/
theorem C1_resume_tracker_witness :
    extractNum ("page2.tex".toList)
      < determineStartPage ["page2.tex".toList, "main.tex".toList,
          "page10.tex".toList, "untitled.1.png".toList] :=
  (C1_resume_tracker _).2.1 ("page2.tex".toList) (by decide) (by decide)

/-- C10: the resume computation is determined by the files matching
`page<digits>.tex` alone: prepending any non-matching file (in particular
the master manifest `main.tex` or a leftover PNG raster artifact) never
changes it, listings with the same matching files agree, and the matcher
accepts exactly the strings `page` ++ nonempty digits ++ `.tex`. -/
theorem C10_resume_pattern (dir : List Str) :
    (∀ f, isPageTexName f = false →
      getLastProcessedPageByTex (f :: dir) = getLastProcessedPageByTex dir) ∧
    (∀ dir', dir.filter isPageTexName = dir'.filter isPageTexName →
      getLastProcessedPageByTex dir = getLastProcessedPageByTex dir') ∧
    isPageTexName mainTexName = false ∧
    (∀ n, isPageTexName (pngName n) = false) ∧
    (∀ f, isPageTexName f = true ↔
      ∃ ds : Str, f = pageLit ++ ds ++ texLit ∧ ds ≠ [] ∧
        ∀ c ∈ ds, c.isDigit = true) := by
  refine ⟨?_, ?_, isPageTexName_mainTexName, isPageTexName_pngName, ?_⟩
  · intro f hf
    apply getLast_filter_congr
    simp [List.filter_cons, hf]
  · intro dir' h
    exact getLast_filter_congr h
  · intro f
    constructor
    · intro hf
      rw [isPageTexName, Bool.and_eq_true, Bool.and_eq_true, Bool.and_eq_true] at hf
      obtain ⟨⟨⟨hpre, hsuf⟩, hlen⟩, hall⟩ := hf
      have hlen' : 8 < f.length := of_decide_eq_true hlen
      obtain ⟨r, hr⟩ := List.isPrefixOf_iff_prefix.1 hpre
      obtain ⟨t, ht⟩ := List.isSuffixOf_iff_suffix.1 hsuf
      have hrdrop : f.drop 4 = r := by
        rw [← hr]
        exact List.drop_left' (by decide)
      have htlen : t.length = f.length - 4 := by
        have := congrArg List.length ht
        simp only [List.length_append] at this
        have h4 : (texLit : Str).length = 4 := by decide
        omega
      have hteq : f.drop 4 = t.drop 4 ++ texLit := by
        rw [← ht, List.drop_append_eq_append_drop]
        have h40 : 4 - t.length = 0 := by omega
        rw [h40, List.drop_zero]
      have hmid : (f.drop 4).take (f.length - 8) = t.drop 4 := by
        rw [hteq]
        have hlen2 : (t.drop 4).length = f.length - 8 := by
          simp [htlen]
          omega
        rw [← hlen2]
        exact List.take_left _ _
      refine ⟨(f.drop 4).take (f.length - 8), ?_, ?_, ?_⟩
      · have hreq : r = t.drop 4 ++ texLit := by rw [← hrdrop, hteq]
        rw [hmid, ← hr, hreq, List.append_assoc]
      · intro h0
        have := congrArg List.length h0
        simp only [List.length_take, List.length_drop, List.length_nil] at this
        omega
      · intro c hc
        exact List.all_eq_true.1 hall c hc
    · rintro ⟨ds, rfl, hne, hdig⟩
      exact isPageTexName_form hne hdig

/-- C10 witness: a leftover PNG artifact does not change the resume value of
a listing containing the page unit `page3.tex`. -/
theorem C10_resume_pattern_witness :
    getLastProcessedPageByTex ["untitled.2.png".toList, "page3.tex".toList]
      = getLastProcessedPageByTex ["page3.tex".toList] :=
  (C10_resume_pattern _).1 ("untitled.2.png".toList) (by decide)

/-- C4: in every reachable manifest the inclusion references are strictly
increasing in order of appearance (hence duplicate-free); when the closing
marker is present it occurs exactly once, nothing but a newline follows it,
and no reference appears after it; `recordPage` adds exactly the new page's
reference as the last one (inserting before the marker when one exists,
appending at the end otherwise — in the marker-free case the update is
literally an append); finalization always leaves exactly one closing marker
as the last content, with no reference after it. -/
theorem C4_manifest_invariant {s : Str} {lo : Nat} (h : MReach s lo) :
    List.Pairwise (· < ·) (refsOf s) ∧
    (refsOf s).Nodup ∧
    (containsSub endDoc s = false ∨
      ∃ i, lastIndexOf endDoc s = some i ∧ countOcc endDoc s = 1 ∧
        s.drop i = endDoc ++ ['\n'] ∧ refsOf (s.drop i) = []) ∧
    (∀ n, lo < n → refsOf (recordPage s n) = refsOf s ++ [n]) ∧
    (∀ n, containsSub endDoc s = false → recordPage s n = s ++ incLine n) ∧
    (∃ j, lastIndexOf endDoc (finalizeMainTex s) = some j ∧
      countOcc endDoc (finalizeMainTex s) = 1 ∧
      (finalizeMainTex s).drop j = endDoc ++ ['\n'] ∧
      refsOf ((finalizeMainTex s).drop j) = []) := by
  obtain ⟨cs, hform, hpw, _⟩ := mreach_form h
  have hrefs : refsOf s = chunkRefs cs := by
    rcases hform with rfl | rfl
    · exact refsOf_openRender cs
    · exact refsOf_closedRender cs
  refine ⟨by rw [hrefs]; exact hpw,
    by rw [hrefs]; exact hpw.imp fun hab => Nat.ne_of_lt hab, ?_, ?_, ?_, ?_⟩
  · rcases hform with rfl | rfl
    · exact Or.inl (no_endDoc_openRender cs)
    · refine Or.inr ⟨(initialMainTex ++ renderChunks cs).length,
        lastIndexOf_closedRender cs, countOcc_closedRender cs,
        closedRender_drop cs, ?_⟩
      rw [closedRender_drop cs]
      rfl
  · intro n _
    rcases hform with rfl | rfl
    · rw [recordPage_openRender, refsOf_openRender, refsOf_openRender,
        chunkRefs_append_inc]
    · rw [recordPage_closedRender, refsOf_closedRender, refsOf_closedRender,
        chunkRefs_append_inc_pad]
  · intro n hno
    exact recordPage_eq_append hno n
  · rcases hform with rfl | rfl
    · rw [finalize_openRender]
      refine ⟨(initialMainTex ++ renderChunks (cs ++ [Chunk.pad, Chunk.pad])).length,
        lastIndexOf_closedRender _, countOcc_closedRender _, closedRender_drop _, ?_⟩
      rw [closedRender_drop]
      rfl
    · rw [finalize_closedRender]
      refine ⟨(initialMainTex ++ renderChunks cs).length,
        lastIndexOf_closedRender _, countOcc_closedRender _, closedRender_drop _, ?_⟩
      rw [closedRender_drop]
      rfl

/-- C4 witness: from the freshly created manifest, recording page 1 appends
exactly its reference. -/
theorem C4_manifest_invariant_witness :
    refsOf (recordPage initialMainTex 1) = refsOf initialMainTex ++ [1] :=
  (C4_manifest_invariant MReach.init).2.2.2.1 1 (by decide)

/-- C7 counterexample: if the process died between writing the fragment
`page1.tex` and updating the manifest, the manifest is still the initial
content; the next page's `recordPage` call (page 2) inserts only the
reference for page 2 — the missed reference for page 1, an index below the
target that lacks one, is not backfilled. -/
theorem C7_backfill_counterexample :
    refsOf (recordPage initialMainTex 2) = [2] ∧
    ¬ (1 ∈ refsOf (recordPage initialMainTex 2)) := by
  have h0 : initialMainTex = openRender [] := by
    simp [openRender, renderChunks]
  have h1 : refsOf (recordPage initialMainTex 2) = [2] := by
    rw [h0, recordPage_openRender, refsOf_openRender]
    simp [chunkRefs]
  exact ⟨h1, by rw [h1]; decide⟩

/-- C7 amended: `recordPage` records exactly the reference of the page
being recorded — earlier omissions are never backfilled, so a manifest
omission persists — while the Resume Tracker still derives the correct
next start index from the fragment files alone (any existing fragment
index lies below the computed start page). -/
theorem C7_no_backfill_amended {s : Str} {lo : Nat} (h : MReach s lo) (n : Nat) :
    refsOf (recordPage s n) = refsOf s ++ [n] ∧
    (∀ (dir : List Str) (k : Nat), pageFileName k ∈ dir →
      k < determineStartPage dir) := by
  obtain ⟨cs, hform, _, _⟩ := mreach_form h
  constructor
  · rcases hform with rfl | rfl
    · rw [recordPage_openRender, refsOf_openRender, refsOf_openRender,
        chunkRefs_append_inc]
    · rw [recordPage_closedRender, refsOf_closedRender, refsOf_closedRender,
        chunkRefs_append_inc_pad]
  · intro dir k hk
    rw [determineStartPage]
    have := getLast_le hk (isPageTexName_pageFileName k)
    rw [extractNum_pageFileName] at this
    omega

/-- C7 amended witness: recording page 2 into the fresh manifest adds only
that reference, and a directory holding `page3.tex` resumes past index 3. -/
theorem C7_no_backfill_amended_witness :
    refsOf (recordPage initialMainTex 2) = refsOf initialMainTex ++ [2] ∧
    3 < determineStartPage ["page3.tex".toList] := by
  refine ⟨(C7_no_backfill_amended MReach.init 2).1, ?_⟩
  exact (C7_no_backfill_amended MReach.init 2).2 ["page3.tex".toList] 3 (by decide)

/-- C2 (code bug): a Gemini quota error raised by `generateContent` carries
the markers the driver's quota classifier looks for and a 5 second
suggested wait — but `processPageWithGemini` catches it at
src/main.ts:195-198 and rethrows the generic wrapper error, whose string
carries none of the markers.  The rewrapped failure is therefore counted
against the retry budget, with no quota wait: three such failures exhaust
the page's budget.  Had the raw error reached the retry loop (as the
driver code at src/main.ts:267-286 and 311-331 intends), it would have
recorded the 5 second sleep and left the attempt counter at 1. -/
theorem C2_quota_wrapped_bug :
    isQuotaError quotaErrSample = true ∧
    quotaDelaySeconds quotaErrSample = 5 ∧
    processPageWithGemini true (fun _ => .error quotaErrSample) (fun _ => none)
      [some [1], some [2], some [3]] = .error apiFailMsg ∧
    isQuotaError apiFailMsg = false ∧
    runRetryLoop MAX_RETRIES 1 []
      [.err apiFailMsg, .err apiFailMsg, .err apiFailMsg] = .failed [] [] ∧
    runRetryLoop MAX_RETRIES 1 [] [.err quotaErrSample, .ok []]
      = .succeeded 1 [5] [] [] := by
  refine ⟨by decide, by decide, gemini_call_error rfl, by decide, by decide, by decide⟩

/-- C3: after exactly `MAX_RETRIES` = 3 non-quota failures the retry loop
reports failure having consumed exactly those three outcomes — the rest of
the trace is returned untouched, so no further attempt for the page occurs;
at the driver level the loop for such a page halts the run (the page itself
is the only page attempted by the remaining loop, regardless of remaining
fuel and later pages) and appends the operator notification carrying the
page number and the attempt count. -/
theorem C3_retry_exhaustion {e1 e2 e3 : Str} {rest : List AttemptResult}
    (h1 : isQuotaError e1 = false) (h2 : isQuotaError e2 = false)
    (h3 : isQuotaError e3 = false) :
    runRetryLoop MAX_RETRIES 1 [] (.err e1 :: .err e2 :: .err e3 :: rest)
      = .failed [] rest ∧
    (∀ (N p : Nat) (traces : Nat → List AttemptResult) (st : DriverState)
        (fuel : Nat), p ≤ N →
      traces p = .err e1 :: .err e2 :: .err e3 :: rest →
      driverLoop MAX_RETRIES N traces (fuel + 1) p st
        = ({ st with
              dir := renderSideEffects st.dir N p,
              notified := st.notified ++ [notifyMsg p MAX_RETRIES] }, [p])) := by
  have hr := @runRetryLoop_three_errors e1 e2 e3 rest h1 h2 h3
  refine ⟨hr, ?_⟩
  intro N p traces st fuel hle htr
  exact driverLoop_halt fuel hle (driverPage_failed (by rw [htr]; exact hr))

/-- C3 witness: three generic failures on page 2 of a 5-page document halt
the run right there with the notification for page 2 after 3 attempts. -/
theorem C3_retry_exhaustion_witness :
    runRetryLoop MAX_RETRIES 1 []
      [.err apiFailMsg, .err apiFailMsg, .err apiFailMsg] = .failed [] [] ∧
    driverLoop MAX_RETRIES 5
      (fun _ => [.err apiFailMsg, .err apiFailMsg, .err apiFailMsg]) 1 2 freshState
      = ({ freshState with
            dir := renderSideEffects freshState.dir 5 2,
            notified := freshState.notified ++ [notifyMsg 2 MAX_RETRIES] }, [2]) := by
  have h := @C3_retry_exhaustion apiFailMsg apiFailMsg apiFailMsg []
    (by decide) (by decide) (by decide)
  exact ⟨h.1, h.2 5 2 _ freshState 0 (by decide) rfl⟩

/-- C5: context window construction for page `i` of `N`: the renderer is
consulted only for in-range indices — an out-of-range slot is `none` for
every renderer — and, assuming the renderer yields a nonempty image for
every in-range page, the current slot is always present, the previous slot
is present exactly when `2 ≤ i`, and the next slot exactly when
`i + 1 ≤ N`; hence page 1 of `N > 1` lacks only the previous slot, page `N`
lacks the next, interior pages have both, and the single page of `N = 1`
has neither, with absent neighbors simply `none` rather than errors. -/
theorem C5_context_window (render : Nat → Option (List Nat)) (N i : Nat)
    (h1 : 1 ≤ i) (h2 : i ≤ N)
    (hr : ∀ q, 1 ≤ q → q ≤ N → ∃ b, render q = some b ∧ 0 < b.length) :
    ((buildWindow render N i).2.1.isSome = true) ∧
    ((buildWindow render N i).1.isSome = true ↔ 2 ≤ i) ∧
    ((buildWindow render N i).2.2.isSome = true ↔ i + 1 ≤ N) ∧
    (∀ (render' : Nat → Option (List Nat)) (p : Nat), p < 1 ∨ N < p →
      getImageBuffer render N p = getImageBuffer render' N p) := by
  refine ⟨getImageBuffer_isSome hr h1 h2, ?_, ?_, ?_⟩
  · constructor
    · intro hs
      by_contra hlt
      have hi1 : i = 1 := by omega
      rw [show (buildWindow render N i).1 = getImageBuffer render N (i - 1) from rfl,
        hi1, getImageBuffer_out_of_range (by omega) render] at hs
      simp at hs
    · intro hge
      exact getImageBuffer_isSome hr (by omega) (by omega)
  · constructor
    · intro hs
      by_contra hgt
      rw [show (buildWindow render N i).2.2 = getImageBuffer render N (i + 1) from rfl,
        getImageBuffer_out_of_range (by omega) render] at hs
      simp at hs
    · intro hle
      exact getImageBuffer_isSome hr (by omega) hle
  · intro render' p hp
    rw [getImageBuffer_out_of_range hp render, getImageBuffer_out_of_range hp render']

/-- C5 witness: for page 1 of 3 with a healthy renderer the previous slot
is absent and the current and next slots are present. -/
theorem C5_context_window_witness :
    (buildWindow (fun _ => some [5]) 3 1).1.isSome = false ∧
    (buildWindow (fun _ => some [5]) 3 1).2.1.isSome = true ∧
    (buildWindow (fun _ => some [5]) 3 1).2.2.isSome = true := by
  have h := C5_context_window (fun _ => some [5]) 3 1 (by decide) (by decide)
    (fun q _ _ => ⟨[5], rfl, by decide⟩)
  refine ⟨?_, h.1, h.2.2.1.2 (by decide)⟩
  have h3 : ¬ ((buildWindow (fun _ => some [5]) 3 1).1.isSome = true) := by
    intro hh
    have := h.2.1.1 hh
    omega
  exact Bool.not_eq_true _ ▸ h3

/-- C8 counterexample: a recognition response that parses as JSON but has no
`content` field does not match the expected shape, yet the adapter records
it as a successful extraction of the empty string
(`parsedJson?.content ?? ""`, src/main.ts:187) instead of failing.  The
parse oracle models `JSON.parse` on the body `"\x7b\x7d"`: it succeeds and
yields an object without the expected field. -/
theorem C8_parse_counterexample :
    processPageWithGemini true (fun _ => .ok (some ("\x7b\x7d".toList)))
      (fun _ => some none) [some [1], some [2], some [3]] = .ok [] := rfl

/-- C8 amended: a response whose text field is not a string, or whose body
fails JSON parsing, makes the attempt fail — though with the generic
API-failure wrapper error rather than a distinct parse-error value — and
that failure is not quota-classified, so it consumes one attempt of the
retry budget; however a response that parses to JSON without the expected
text field is recorded as a successful extraction of empty content. -/
theorem C8_parse_error_amended
    (call : List GenerativePart → Except Str (Option Str))
    (parse : Str → Option (Option Str)) (bufs : List (Option (List Nat))) :
    (call (imageParts bufs) = .ok none →
      processPageWithGemini true call parse bufs = .error apiFailMsg) ∧
    (∀ txt, call (imageParts bufs) = .ok (some txt) → parse txt = none →
      processPageWithGemini true call parse bufs = .error apiFailMsg) ∧
    isQuotaError apiFailMsg = false ∧
    (∀ (maxR a : Nat) (s : List Nat) (rest : List AttemptResult), a ≤ maxR →
      runRetryLoop maxR a s (.err apiFailMsg :: rest)
        = runRetryLoop maxR (a + 1) s rest) ∧
    (∀ txt, call (imageParts bufs) = .ok (some txt) → parse txt = some none →
      processPageWithGemini true call parse bufs = .ok []) := by
  refine ⟨?_, ?_, by decide, ?_, ?_⟩
  · intro h
    exact gemini_text_not_string h
  · intro txt h hp
    exact gemini_parse_throws h hp
  · intro maxR a s rest ha
    exact runRetryLoop_err_step (by decide) ha
  · intro txt h hp
    exact gemini_parse_ok h hp

/-- C8 amended witness: an unparseable body fails with the wrapper error,
and that error consumes one attempt. -/
theorem C8_parse_error_amended_witness :
    processPageWithGemini true (fun _ => .ok (some ("not json".toList)))
      (fun _ => none) [some [1]] = .error apiFailMsg ∧
    runRetryLoop 3 1 [] [.err apiFailMsg] = runRetryLoop 3 2 [] [] := by
  have h := C8_parse_error_amended (fun _ => .ok (some ("not json".toList)))
    (fun _ => none) [some [1]]
  exact ⟨h.2.1 _ rfl rfl, h.2.2.2.1 3 1 [] [] (by decide)⟩

/-- C9: a zero-length rendered image is treated as absent: when it is the
current page, the attempt fails with the missing-image error, which is not
quota-classified and so consumes one attempt of the retry budget; when it
is a neighbor — the previous page as well as the next page — the empty
image becomes an absent slot, is dropped from the parts sent to the
recognition service, and the attempt's outcome is exactly the recognition
call's outcome — no error is raised for the neighbor. -/
theorem C9_empty_image (render : Nat → Option (List Nat)) (hasKey : Bool)
    (call : List GenerativePart → Except Str (Option Str))
    (parse : Str → Option (Option Str)) (N p : Nat) :
    (1 ≤ p → p ≤ N → render p = some [] →
      attemptPage render hasKey call parse N p = .error missingImgMsg ∧
      isQuotaError missingImgMsg = false ∧
      (∀ (maxR a : Nat) (s : List Nat) (rest : List AttemptResult), a ≤ maxR →
        runRetryLoop maxR a s (.err missingImgMsg :: rest)
          = runRetryLoop maxR (a + 1) s rest)) ∧
    (∀ c, 2 ≤ p → p ≤ N → render (p - 1) = some [] → render p = some c →
      0 < c.length →
      getImageBuffer render N (p - 1) = none ∧
      attemptPage render hasKey call parse N p
        = processPageWithGemini hasKey call parse
            [none, some c, getImageBuffer render N (p + 1)] ∧
      imageParts [none, some c, getImageBuffer render N (p + 1)]
        = imageParts [some c, getImageBuffer render N (p + 1)]) ∧
    (∀ c, 1 ≤ p → p ≤ N → render (p + 1) = some [] → render p = some c →
      0 < c.length →
      getImageBuffer render N (p + 1) = none ∧
      attemptPage render hasKey call parse N p
        = processPageWithGemini hasKey call parse
            [getImageBuffer render N (p - 1), some c, none] ∧
      imageParts [getImageBuffer render N (p - 1), some c, none]
        = imageParts [getImageBuffer render N (p - 1), some c]) := by
  refine ⟨?_, ?_, ?_⟩
  · intro hp1 hp2 hcur
    refine ⟨attemptPage_missing (getImageBuffer_empty hp1 hp2 hcur), by decide, ?_⟩
    intro maxR a s rest ha
    exact runRetryLoop_err_step (by decide) ha
  · intro c hp1 hp2 hprev hcur hlen
    have hpn : getImageBuffer render N (p - 1) = none :=
      getImageBuffer_empty (by omega) (by omega) hprev
    refine ⟨hpn, ?_, imageParts_none_cons _⟩
    rw [attemptPage_curr_some (getImageBuffer_some (by omega) hp2 hcur hlen), hpn]
  · intro c hp1 hp2 hnext hcur hlen
    have hnn : getImageBuffer render N (p + 1) = none := by
      rcases le_or_lt (p + 1) N with hin | hout
      · exact getImageBuffer_empty (by omega) hin hnext
      · exact getImageBuffer_out_of_range (Or.inr hout) render
    refine ⟨hnn, ?_, imageParts_append_none [getImageBuffer render N (p - 1), some c]⟩
    rw [attemptPage_curr_some (getImageBuffer_some (by omega) hp2 hcur hlen), hnn]

/-- C9 witness: a renderer returning an empty buffer for the current page
makes the attempt fail with the missing-image error, and a renderer
returning an empty buffer for the next neighbor (page 3 of 3, current
page 2 healthy) yields an absent next slot. -/
theorem C9_empty_image_witness :
    attemptPage (fun _ => some ([] : List Nat)) true (fun _ => .ok none)
      (fun _ => none) 3 1 = .error missingImgMsg ∧
    getImageBuffer (fun q => if q = 3 then some ([] : List Nat) else some [7]) 3 3
      = none := by
  refine ⟨(((C9_empty_image (fun _ => some ([] : List Nat)) true (fun _ => .ok none)
      (fun _ => none) 3 1).1 (by decide) (by decide) rfl).1), ?_⟩
  exact ((C9_empty_image (fun q => if q = 3 then some ([] : List Nat) else some [7])
      true (fun _ => .ok none) (fun _ => none) 3 2).2.2 [7]
      (by decide) (by decide) (by decide) (by decide) (by decide)).1

/-- C6: running the pipeline twice over the same document, the second run
starting from the state the first run left behind, never starts processing
a page whose page unit already exists (so no fragment is reprocessed or
rewritten), the final manifest carries no duplicate inclusion reference,
and the directory listing stays duplicate-free. -/
theorem C6_idempotent_runs (N : Nat) (tr1 tr2 : Nat → List AttemptResult) :
    (∀ p, pageFileName p ∈ (processPdfDocument MAX_RETRIES N tr1 freshState).1.dir →
      p ∉ (processPdfDocument MAX_RETRIES N tr2
            (processPdfDocument MAX_RETRIES N tr1 freshState).1).2) ∧
    (refsOf (processPdfDocument MAX_RETRIES N tr2
        (processPdfDocument MAX_RETRIES N tr1 freshState).1).1.mainTex).Nodup ∧
    (processPdfDocument MAX_RETRIES N tr2
        (processPdfDocument MAX_RETRIES N tr1 freshState).1).1.dir.Nodup := by
  have hsetup1 : setupWorkspace freshState
      = ⟨[mainTexName], initialMainTex, []⟩ := by
    rw [setupWorkspace, if_neg (by decide)]
    rfl
  obtain ⟨cs1, hm1, hpw1, hfl1, hnd1, hmono1, hatt1⟩ :=
    processPdf_spec MAX_RETRIES N tr1 freshState []
      (by rw [hsetup1]; exact Or.inl (by simp [openRender, renderChunks]))
      (by simp [chunkRefs])
      (by simp [chunkRefs])
      (by simp [chunkRefs])
      (by rw [hsetup1]; exact List.nodup_singleton _)
  have hmem1 : mainTexName ∈ (processPdfDocument MAX_RETRIES N tr1 freshState).1.dir := by
    apply hmono1
    rw [hsetup1]
    exact List.mem_singleton_self _
  have hsetup2 : setupWorkspace (processPdfDocument MAX_RETRIES N tr1 freshState).1
      = (processPdfDocument MAX_RETRIES N tr1 freshState).1 := setup_noop hmem1
  obtain ⟨cs2, hm2, hpw2, hfl2, hnd2, hmono2, hatt2⟩ :=
    processPdf_spec MAX_RETRIES N tr2 (processPdfDocument MAX_RETRIES N tr1 freshState).1 cs1
      (by rw [hsetup2]; exact Or.inr hm1)
      hpw1
      (by
        rw [hsetup2]
        intro r hr
        have := getLast_le (hfl1 r hr) (isPageTexName_pageFileName r)
        rw [extractNum_pageFileName] at this
        omega)
      (by rw [hsetup2]; exact hfl1)
      (by rw [hsetup2]; exact hnd1)
  refine ⟨?_, ?_, hnd2⟩
  · intro p hp hmem
    have hub := getLast_le hp (isPageTexName_pageFileName p)
    rw [extractNum_pageFileName] at hub
    have := hatt2 p hmem
    rw [hsetup2] at this
    omega
  · rw [hm2, refsOf_closedRender]
    exact hpw2.imp fun hab => Nat.ne_of_lt hab

/-- C6 witness: the page recorded by a successful first run over a 1-page
document is not attempted by the second run. -/
theorem C6_idempotent_runs_witness :
    1 ∉ (processPdfDocument MAX_RETRIES 1 (fun _ => [AttemptResult.ok []])
          (processPdfDocument MAX_RETRIES 1
            (fun _ => [AttemptResult.ok []]) freshState).1).2 :=
  (C6_idempotent_runs 1 (fun _ => [AttemptResult.ok []])
    (fun _ => [AttemptResult.ok []])).1 1 (by decide)

end Dogmatik
